import Mathlib

/-!
# SPH-EXA: task partitioner, checkpoint I/O, turbulence propagator, Sedov loader

A shallow embedding of

* `include/task.hpp`            (`Task`, `TaskList::update`)
* `include/file_utils.hpp`      (binary / ASCII particle readers and writers)
* `main/src/propagator/turb_ve.hpp` (`TurbVeProp::restoreState`, `step`, `dump`)
* `src/sedov/sedov_generator.hpp`   (`SedovDataGenerator::generate`, `load`)

`size_t` values are natural numbers below `2^64`. The index and count arithmetic of
`task.hpp` and `sedov_generator.hpp` is written with its wrap-around made explicit
(`addSz`, `subSz`, `mulSz`); the byte count `size() * sizeof(first[0])` of a buffer that
exists in memory cannot wrap and is a plain product. Build flags (`USE_CUDA`,
`SPH_EXA_HAVE_H5PART`) are boolean parameters, undefined behaviour is `none`.
-/

set_option autoImplicit false

namespace sphexa

/-! ## `size_t` arithmetic -/

/-- Number of values of a 64-bit `size_t`. -/
def SIZE_T_MOD : Nat := 2 ^ 64

/-- The `size_t` sum `a + b`. -/
def addSz (a b : Nat) : Nat := (a + b) % SIZE_T_MOD

/-- The `size_t` difference `a - b` (wraps when `a < b`). -/
def subSz (a b : Nat) : Nat := (a + (SIZE_T_MOD - b % SIZE_T_MOD)) % SIZE_T_MOD

/-- The `size_t` product `a * b`. -/
def mulSz (a b : Nat) : Nat := (a * b) % SIZE_T_MOD

/-! ## `include/task.hpp` -/

/-- The effect of `std::vector<int>::resize(n)`: the first `n` elements are kept,
new elements are value-initialised to `0`. -/
def vectorResize (v : List Int) (n : Nat) : List Int :=
  v.take n ++ List.replicate (n - v.length) 0

/-- The struct `Task`. -/
structure Task where
  ngmax : Nat
  ng0 : Nat
  firstParticle : Nat
  lastParticle : Nat
  neighbors : List Int
  neighborsCount : List Int
deriving DecidableEq

namespace Task

/-- The constructor `Task(ngmax, ng0)`: both indices start at `0`, both buffers empty. -/
def new (ngmax ng0 : Nat) : Task :=
  { ngmax := ngmax, ng0 := ng0, firstParticle := 0, lastParticle := 0,
    neighbors := [], neighborsCount := [] }

/-- The member `Task::size() = lastParticle - firstParticle`, a `size_t` difference. -/
def size (t : Task) : Nat := subSz t.lastParticle t.firstParticle

/-- The member `Task::resize(size)`; `useCuda` is the build flag `USE_CUDA`: the
neighbor-index buffer is resized only in the host build. -/
def resize (useCuda : Bool) (t : Task) (size : Nat) : Task :=
  let t1 := if useCuda then t else { t with neighbors := vectorResize t.neighbors (mulSz size t.ngmax) }
  { t1 with neighborsCount := vectorResize t1.neighborsCount size }

end Task

/-- The class `TaskList`. -/
structure TaskList where
  ngmax : Nat
  ng0 : Nat
  tasks : List Task
deriving DecidableEq

namespace TaskList

/-- The constructor `TaskList(nTasks, ngmax, ng0)`. -/
def new (nTasks ngmax ng0 : Nat) : TaskList :=
  { ngmax := ngmax, ng0 := ng0, tasks := List.replicate nTasks (Task.new ngmax ng0) }

/-- The body of the loop of `TaskList::update` for index `i`, applied to `tasks[i]`. -/
def updateTask (useCuda : Bool) (firstIndex partitionSize remainder numTasks i : Nat) (t : Task) : Task :=
  let t1 := { t with firstParticle := addSz firstIndex (mulSz i partitionSize) }
  let t2 := { t1 with
    lastParticle :=
      addSz (addSz firstIndex (mulSz (addSz i 1) partitionSize))
        (if i = subSz numTasks 1 then remainder else 0) }
  Task.resize useCuda t2 t2.size

/-- The loop `for (i = 0; i < numTasks; ++i)` of `TaskList::update`, from index `i`
on; the list argument is `tasks[i..]`. -/
def updateLoop (useCuda : Bool) (firstIndex partitionSize remainder numTasks : Nat) :
    Nat → List Task → List Task
  | _, [] => []
  | i, t :: ts =>
    updateTask useCuda firstIndex partitionSize remainder numTasks i t ::
      updateLoop useCuda firstIndex partitionSize remainder numTasks (i + 1) ts

/-- The member `TaskList::update(firstIndex, lastIndex)`. With no task the division
by `numTasks` is undefined behaviour: `none`. -/
def update (useCuda : Bool) (tl : TaskList) (firstIndex lastIndex : Nat) : Option TaskList :=
  let numTasks := tl.tasks.length
  let numParticles := subSz lastIndex firstIndex
  if numTasks = 0 then none
  else
    let partitionSize := numParticles / numTasks
    let remainder := numParticles % numTasks
    some { tl with tasks := updateLoop useCuda firstIndex partitionSize remainder numTasks 0 tl.tasks }

end TaskList

/-! ## `include/file_utils.hpp` -/

namespace fileutils

/-- One `char` of a file or of an object representation. -/
abbrev Byte := Fin 256

/-- The exceptions thrown by the file utilities and the propagator. -/
inductive Error where
  | fileNotOpened (msg : String)
  | runtimeError (msg : String)
deriving DecidableEq

/-- A vector-like argument of the binary routines, as the routines see it: `size()`
elements of `sizeof(first[0])` bytes each, stored contiguously from `&first[0]`. -/
structure Buffer where
  elemSize : Nat
  size : Nat
  bytes : List Byte
deriving DecidableEq

/-- The storage of a buffer holds exactly `size() * sizeof(first[0])` bytes. -/
def Buffer.WellFormed (b : Buffer) : Prop := b.bytes.length = b.size * b.elemSize

/-- The element width and element count of a buffer. -/
def Buffer.shape (b : Buffer) : Nat × Nat := (b.elemSize, b.size)

instance (b : Buffer) : Decidable b.WellFormed := by
  unfold Buffer.WellFormed
  infer_instance

/-- An input file stream: the bytes not yet consumed, and whether no error flag is set. -/
structure IfStream where
  good : Bool
  rest : List Byte
deriving DecidableEq

/-- The call `file.write(ptr, count)` on an open output stream: `count` bytes starting
at `ptr` are appended. -/
def ostreamWrite (file : List Byte) (mem : List Byte) (count : Nat) : List Byte :=
  file ++ mem.take count

/-- The call `file.read(ptr, count)`: nothing is extracted from a stream in error state;
otherwise the available bytes, up to `count`, are stored from `ptr` on, and the stream
fails when fewer than `count` were available. -/
def istreamRead (file : IfStream) (mem : List Byte) (count : Nat) : IfStream × List Byte :=
  if file.good then
    ({ good := decide (count ≤ file.rest.length), rest := file.rest.drop count },
      file.rest.take count ++ mem.drop (file.rest.take count).length)
  else (file, mem)

namespace details

/-- The variadic `details::writeParticleDataToBinFile(file, first, args...)`. -/
def writeParticleDataToBinFile (file : List Byte) : List Buffer → List Byte
  | [] => file
  | first :: args =>
    writeParticleDataToBinFile (ostreamWrite file first.bytes (first.size * first.elemSize)) args

/-- The variadic `details::readParticleDataFromBinFile(file, first, args...)`; returns
the stream and the buffers as the call leaves them. -/
def readParticleDataFromBinFile (file : IfStream) : List Buffer → IfStream × List Buffer
  | [] => (file, [])
  | first :: args =>
    let r := istreamRead file first.bytes (first.size * first.elemSize)
    let rs := readParticleDataFromBinFile r.1 args
    (rs.1, { first with bytes := r.2 } :: rs.2)

end details

/-- The scalars `d.n`, `d.ttot`, `d.minDt` of a dataset, each as its object
representation (`sizeof` is the length). -/
structure DatasetHeader where
  n : List Byte
  ttot : List Byte
  minDt : List Byte
deriving DecidableEq

/-- The function `writeParticleCheckpointDataToBinFile(d, path, data...)`; `isOpen` says
whether `path` could be opened for writing, the result is the content of the file. -/
def writeParticleCheckpointDataToBinFile (d : DatasetHeader) (path : String) (isOpen : Bool)
    (data : List Buffer) : Except Error (List Byte) :=
  if isOpen then
    let c1 := ostreamWrite [] d.n d.n.length
    let c2 := ostreamWrite c1 d.ttot d.ttot.length
    let c3 := ostreamWrite c2 d.minDt d.minDt.length
    .ok (details.writeParticleDataToBinFile c3 data)
  else .error (.fileNotOpened ("Can't open file to write Checkpoint at path: " ++ path))

/-- The function `writeParticleDataToBinFile(path, data...)`. -/
def writeParticleDataToBinFile (path : String) (isOpen : Bool) (data : List Buffer) :
    Except Error (List Byte) :=
  if isOpen then .ok (details.writeParticleDataToBinFile [] data)
  else .error (.fileNotOpened ("Can't open file at path: " ++ path))

/-- The function `readParticleDataFromBinFile(path, data...)`; `file` is the content of
`path`, or `none` when it cannot be opened. Returns the buffers as the call leaves them. -/
def readParticleDataFromBinFile (path : String) (file : Option (List Byte)) (data : List Buffer) :
    Except Error (List Buffer) :=
  match file with
  | some content => .ok (details.readParticleDataFromBinFile { good := true, rest := content } data).2
  | none => .error (.fileNotOpened ("Can't open file at path: " ++ path))

/-- A text input stream for formatted extraction: the whitespace-separated fields not
yet consumed, `some v` for a field that is the decimal numeral of `v`, `none` for one
that does not parse as an integer. -/
structure TextStream where
  good : Bool
  fields : List (Option Int)
deriving DecidableEq

/-- The largest value of an `int`. -/
def INT_MAX : Int := 2147483647

/-- The smallest value of an `int`. -/
def INT_MIN : Int := -2147483648

/-- The extraction `file >> x` into an `int`: no effect on a stream in error state; at
end of input the stream fails and `x` is kept; a field that does not parse fails the
stream and stores zero; a field whose value does not fit an `int` is consumed, fails the
stream and stores `INT_MAX` or `INT_MIN`; otherwise the value is stored and the field
consumed. -/
def extract (file : TextStream) (x : Int) : TextStream × Int :=
  if file.good then
    match file.fields with
    | [] => ({ file with good := false }, x)
    | none :: _ => ({ file with good := false }, 0)
    | some v :: rest =>
      if v > INT_MAX then ({ good := false, fields := rest }, INT_MAX)
      else if v < INT_MIN then ({ good := false, fields := rest }, INT_MIN)
      else ({ file with fields := rest }, v)
  else (file, x)

namespace details

/-- The variadic `details::readParticleDataFromAsciiFile(file, idx, first, data...)`:
`file >> first[idx]` for every container in argument order. -/
def readParticleDataFromAsciiFile (file : TextStream) (idx : Nat) :
    List (List Int) → TextStream × List (List Int)
  | [] => (file, [])
  | first :: data =>
    let r := extract file (first.getD idx 0)
    let rs := readParticleDataFromAsciiFile r.1 idx data
    (rs.1, first.set idx r.2 :: rs.2)

end details

/-- The row loop `for (i = 0; i < readSize; ++i)` of `readParticleDataFromAsciiFile`,
with `i` the next row and `todo` the number of rows left. -/
def readRows (file : TextStream) (data : List (List Int)) : Nat → Nat → List (List Int)
  | _, 0 => data
  | i, todo + 1 =>
    let r := details.readParticleDataFromAsciiFile file i data
    readRows r.1 r.2 (i + 1) todo

/-- The function `readParticleDataFromAsciiFile(path, data...)`; `file` is the content
of `path`, or `none` when it cannot be opened. Returns the exception thrown, if any, and
the containers as the call leaves them; `none` with no container at all, where
`sizes[0]` reads past an empty array. -/
def readParticleDataFromAsciiFile (path : String) (file : Option (List (Option Int)))
    (data : List (List Int)) : Option (Except Error Unit × List (List Int)) :=
  let sizes := data.map List.length
  match sizes with
  | [] => none
  | readSize :: _ =>
    if sizes.count readSize ≠ sizes.length then
      some (.error (.runtimeError "Argument vector sizes to read into are not equal\n"), data)
    else
      match file with
      | some fields => some (.ok (), readRows { good := true, fields := fields } data 0 readSize)
      | none => some (.error (.fileNotOpened ("Can't open file at path: " ++ path)), data)

end fileutils

/-! ## `main/src/propagator/turb_ve.hpp` -/

/-- The member `turbulenceData` of `TurbVeProp`, as far as the propagator touches it:
the vector of phases, over the scalar type `T`. -/
structure TurbulenceData (T : Type) where
  phases : List T
deriving DecidableEq

/-- A file attribute of an H5Part file: its name, the stored array, and how
`H5PartReadFileAttrib` behaves on it: `none` when the read succeeds and copies the
stored array, `some left` when it reports an error and leaves `left` in the
destination. -/
structure FileAttribute (T : Type) where
  name : String
  values : List T
  failedRead : Option (List T)
deriving DecidableEq

/-- An H5Part file as the propagator reads it: the `step` attribute (the SPH iteration)
of every stored step, in step order, and the file attributes in index order. -/
structure H5PartFile (T : Type) where
  steps : List Nat
  attributes : List (FileAttribute T)
deriving DecidableEq

/-- What `restoreState` finds at `path`. -/
inductive RestartPath (T : Type) where
  | missing
  | unopenable
  | file (h5 : H5PartFile T)
deriving DecidableEq

/-- Modelled from the spec: `fileutils::openH5Part` of `io/mpi_file_utils.hpp`, which
is not among the sources; a path that cannot be opened is fatal to the call. -/
def openH5Part {T : Type} (path : String) : RestartPath T → Except fileutils.Error (H5PartFile T)
  | .file h5 => .ok h5
  | _ => .error (.runtimeError ("Could not open H5Part file " ++ path))

/-- The member `TurbVeProp::restoreState(path, comm)`; `haveH5Part` is the build flag
`SPH_EXA_HAVE_H5PART`. Returns the exception thrown, if any, and `turbulenceData` as the
call leaves it; `none` where the call runs into undefined behaviour (printing the first
five of fewer than five phases; the lookup of the attribute at `indexOfPhases` cannot
miss, the index being below the attribute count there). -/
def restoreState {T : Type} (haveH5Part : Bool) (path : String) (atPath : RestartPath T)
    (turbulenceData : TurbulenceData T) :
    Option (Except fileutils.Error Unit × TurbulenceData T) :=
  if haveH5Part then
    match atPath with
    | .missing => some (.ok (), turbulenceData)
    | _ =>
      match openH5Part path atPath with
      | .error e => some (.error e, turbulenceData)
      | .ok h5_file =>
        let numSteps := h5_file.steps.length
        if numSteps = 0 then
          some (.error (.runtimeError "Cannot initialize phases from empty file\n"), turbulenceData)
        else
          let h5_step := numSteps - 1
          let iteration := h5_file.steps.getD h5_step 0
          let phaseAttribute := "phases_" ++ toString iteration
          let fileAttributes := h5_file.attributes.map FileAttribute.name
          let indexOfPhases := fileAttributes.findIdx (fun a => a == phaseAttribute)
          if indexOfPhases = fileAttributes.length then
            some (.error (.runtimeError ("No data found at " ++ phaseAttribute)), turbulenceData)
          else
            match h5_file.attributes[indexOfPhases]? with
            | none => none
            | some found =>
              let numPhases := found.values.length
              if numPhases ≠ turbulenceData.phases.length then
                some (.error (.runtimeError
                  "Stored number of phases does not match initialized number of phases\n"),
                  turbulenceData)
              else
                match found.failedRead with
                | some left =>
                  some (.error (.runtimeError "Could not read turbulence phases\n"),
                    { turbulenceData with phases := left })
                | none =>
                  if found.values.length < 5 then none
                  else some (.ok (), { turbulenceData with phases := found.values })
  else some (.ok (), turbulenceData)

/-- The member `TurbVeProp::dump(iteration, path)`; `haveH5Part` is the build flag
`SPH_EXA_HAVE_H5PART`, `file` the H5Part file at `path + ".h5"`. Returns the exception
thrown, or the file as the call leaves it. -/
def dump {T : Type} (haveH5Part : Bool) (rank : Nat) (turbulenceData : TurbulenceData T)
    (iteration : Nat) (file : H5PartFile T) : Except fileutils.Error (H5PartFile T) :=
  if haveH5Part then
    if rank > 0 then .ok file
    else
      let attributeName := "phases_" ++ toString iteration
      .ok { file with
        attributes := file.attributes ++ [⟨attributeName, turbulenceData.phases, none⟩] }
  else .error (.runtimeError "Turbulence phase output only supported with HDF5 support\n")

/-- The collaborators of `TurbVeProp::step`, none of which is among the sources: the
domain accessors, the base class's `computeForces`, the stage functions of `sph/`, and
the timer. The stages and the timer run in a monad `m` that carries their effects. -/
structure Collaborators (m : Type → Type) (Dom D Box TD Timer : Type) where
  startIndex : Dom → Nat
  endIndex : Dom → Nat
  box : Dom → Box
  computeForces : Dom → D → Timer → m (Dom × D × Timer)
  computeTimestep : D → m D
  driveTurbulence : Nat → Nat → D → TD → m (D × TD)
  transferToHost : D → Nat → Nat → List String → m D
  computePositions : Nat → Nat → D → Box → m D
  updateSmoothingLength : Nat → Nat → D → Nat → m D
  timerStep : Timer → String → m Timer
  timerStop : Timer → m Timer

/-- The state `TurbVeProp::step(domain, d)` works on: its two arguments and the members
`timer` and `turbulenceData`. -/
structure StepState (Dom D TD Timer : Type) where
  domain : Dom
  d : D
  timer : Timer
  turbulenceData : TD

/-- The member `TurbVeProp::step(domain, d)`; `ng0` is the member `ng0_`. The body is
the sequence of calls of the source, over whatever monad the collaborators run in: a
collaborator that throws ends the call, and the body can do nothing but call them. -/
def step {m : Type → Type} [Monad m] {Dom D Box TD Timer : Type}
    (env : Collaborators m Dom D Box TD Timer) (ng0 : Nat) (s : StepState Dom D TD Timer) :
    m (StepState Dom D TD Timer) := do
  let r0 ← env.computeForces s.domain s.d s.timer
  let domain := r0.1
  let first := env.startIndex domain
  let last := env.endIndex domain
  let d1 ← env.computeTimestep r0.2.1
  let timer1 ← env.timerStep r0.2.2 "Timestep"
  let r2 ← env.driveTurbulence first last d1 s.turbulenceData
  let timer2 ← env.timerStep timer1 "Turbulence Stirring"
  let d3 ← env.transferToHost r2.1 first last ["ax", "ay", "az", "du"]
  let d4 ← env.computePositions first last d3 (env.box domain)
  let timer3 ← env.timerStep timer2 "UpdateQuantities"
  let d5 ← env.updateSmoothingLength first last d4 ng0
  let timer4 ← env.timerStep timer3 "UpdateSmoothingLength"
  let timer5 ← env.timerStop timer4
  pure { domain := domain, d := d5, timer := timer5, turbulenceData := r2.2 }

/-- One recorded invocation of a collaborator of `step`, with the arguments it received. -/
inductive Call (Box : Type) where
  | computeForces
  | computeTimestep
  | timerStep (name : String)
  | driveTurbulence (first last : Nat)
  | transferToHost (first last : Nat) (fields : List String)
  | computePositions (first last : Nat) (box : Box)
  | updateSmoothingLength (first last : Nat) (ng0 : Nat)
  | timerStop
deriving DecidableEq

/-- Whether a call is one of the `timer.step(...)` checkpoints between the stages. -/
def Call.isTimerStep {Box : Type} : Call Box → Bool
  | .timerStep _ => true
  | _ => false

/-- An instrumented run: a computation that extends the list of recorded invocations
and returns a value or the exception thrown. -/
def Traced (Box : Type) (α : Type) : Type :=
  List (Call Box) → List (Call Box) × Except fileutils.Error α

/-- Sequencing of instrumented runs: an exception ends the run and keeps what was
recorded up to it. -/
def Traced.bind {Box α β : Type} (x : Traced Box α) (f : α → Traced Box β) : Traced Box β :=
  fun log =>
    match x log with
    | (log1, .ok a) => f a log1
    | (log1, .error e) => (log1, .error e)

instance (Box : Type) : Monad (Traced Box) where
  pure a := fun log => (log, .ok a)
  bind := Traced.bind

/-- The uninstrumented behaviour of the stages and of the timer: a stage returns its
result or throws, the timer does not throw. -/
structure Stages (Dom D Box TD Timer : Type) where
  startIndex : Dom → Nat
  endIndex : Dom → Nat
  box : Dom → Box
  computeForces : Dom → D → Timer → Except fileutils.Error (Dom × D × Timer)
  computeTimestep : D → Except fileutils.Error D
  driveTurbulence : Nat → Nat → D → TD → Except fileutils.Error (D × TD)
  transferToHost : D → Nat → Nat → List String → Except fileutils.Error D
  computePositions : Nat → Nat → D → Box → Except fileutils.Error D
  updateSmoothingLength : Nat → Nat → D → Nat → Except fileutils.Error D
  timerStep : Timer → String → Timer
  timerStop : Timer → Timer

/-- The instrumentation of the stages: each collaborator, when it is invoked, records
the invocation with the arguments it was given and then behaves as the stage does. -/
def instrument {Dom D Box TD Timer : Type} (b : Stages Dom D Box TD Timer) :
    Collaborators (Traced Box) Dom D Box TD Timer where
  startIndex := b.startIndex
  endIndex := b.endIndex
  box := b.box
  computeForces := fun dom d t log => (log ++ [.computeForces], b.computeForces dom d t)
  computeTimestep := fun d log => (log ++ [.computeTimestep], b.computeTimestep d)
  driveTurbulence := fun first last d td log =>
    (log ++ [.driveTurbulence first last], b.driveTurbulence first last d td)
  transferToHost := fun d first last fields log =>
    (log ++ [.transferToHost first last fields], b.transferToHost d first last fields)
  computePositions := fun first last d box log =>
    (log ++ [.computePositions first last box], b.computePositions first last d box)
  updateSmoothingLength := fun first last d ng0 log =>
    (log ++ [.updateSmoothingLength first last ng0], b.updateSmoothingLength first last d ng0)
  timerStep := fun t name log => (log ++ [.timerStep name], .ok (b.timerStep t name))
  timerStop := fun t log => (log ++ [.timerStop], .ok (b.timerStop t))

/-- Stages that never fail and change nothing, over a domain that is just its window
`(startIndex, endIndex)`; they exercise `step` on a concrete input. -/
def idleStages : Stages (Nat × Nat) Unit Unit Unit Unit where
  startIndex := fun dom => dom.1
  endIndex := fun dom => dom.2
  box := fun _ => ()
  computeForces := fun dom d t => .ok (dom, d, t)
  computeTimestep := fun d => .ok d
  driveTurbulence := fun _ _ d td => .ok (d, td)
  transferToHost := fun d _ _ _ => .ok d
  computePositions := fun _ _ d _ => .ok d
  updateSmoothingLength := fun _ _ d _ => .ok d
  timerStep := fun t _ => t
  timerStop := fun t => t

/-- Stages as `idleStages`, except that the turbulence stirring throws. -/
def stirringFails : Stages (Nat × Nat) Unit Unit Unit Unit :=
  { idleStages with
    driveTurbulence := fun _ _ _ _ => .error (.runtimeError "stirring failed") }

/-! ## `src/sedov/sedov_generator.hpp` -/

namespace SedovDataGenerator

/-- The fields of the dataset that `load` computes before filling the lattice: the
local particle count `pd.count` and the local variable `offset`. -/
structure Window where
  count : Nat
  offset : Nat
deriving DecidableEq

/-- The head of `SedovDataGenerator::load` for the dataset fields `n`, `nrank`, `rank`:
`split`, `remaining`, `pd.count` and `offset`. With `nrank = 0` the division is
undefined behaviour: `none`. -/
def loadWindow (n nrank rank : Nat) : Option Window :=
  if nrank = 0 then none
  else
    let split := n / nrank
    let remaining := subSz n (mulSz nrank split)
    let count := if rank = 0 then addSz split remaining else split
    let offset := if rank > 0 then addSz (mulSz rank split) remaining else mulSz rank split
    some { count := count, offset := offset }

/-- The index `lindex = (i * side * side) + (j * side) + k` of the lattice loop. -/
def lindex (side i j k : Nat) : Nat :=
  addSz (addSz (mulSz (mulSz i side) side) (mulSz j side)) k

/-- The guard `lindex >= offset && lindex < offset + pd.count` of the lattice loop. -/
def inWindow (w : Window) (lindex : Nat) : Bool :=
  decide (lindex ≥ w.offset ∧ lindex < addSz w.offset w.count)

/-- The lattice loop of `SedovDataGenerator::load` on one rank: the pairs of a global
lattice index and the local slot `lindex - offset` written for it, for `i`, `j`, `k`
from `0` to `side - 1`. -/
def loadSlots (side : Nat) (w : Window) : List (Nat × Nat) :=
  (List.range side).flatMap fun i =>
    (List.range side).flatMap fun j =>
      (List.range side).filterMap fun k =>
        if inWindow w (lindex side i j k) then
          some (lindex side i j k, subSz (lindex side i j k) w.offset)
        else none

/-- The part of `SedovDataGenerator::generate(side)` before `init`; `initialRank` is
`pd.rank` of the freshly constructed dataset, `nrank` and `rank` are the fields when
`load` is called. A side below eight with `initialRank = 0` ends the program (`none`);
otherwise `pd.n = side * side * side` and `load` runs. Returns `pd.n`, the rank's
window and the slots it fills. -/
def generate (side initialRank nrank rank : Nat) : Option (Nat × Window × List (Nat × Nat)) :=
  if initialRank = 0 ∧ side < 8 then none
  else
    let n := mulSz (mulSz side side) side
    match loadWindow n nrank rank with
    | none => none
    | some w => some (n, w, loadSlots side w)

end SedovDataGenerator

/-! ## Proofs: `size_t` arithmetic without overflow -/

theorem addSz_eq_of_lt {a b : Nat} (h : a + b < SIZE_T_MOD) : addSz a b = a + b :=
  Nat.mod_eq_of_lt h

theorem mulSz_eq_of_lt {a b : Nat} (h : a * b < SIZE_T_MOD) : mulSz a b = a * b :=
  Nat.mod_eq_of_lt h

theorem subSz_eq_of_le {a b : Nat} (hba : b ≤ a) (ha : a < SIZE_T_MOD) : subSz a b = a - b := by
  have hb : b < SIZE_T_MOD := lt_of_le_of_lt hba ha
  unfold subSz
  rw [Nat.mod_eq_of_lt hb]
  have e : a + (SIZE_T_MOD - b) = (a - b) + SIZE_T_MOD := by omega
  rw [e, Nat.add_mod_right]
  exact Nat.mod_eq_of_lt (by omega)

/-! ## Proofs: `TaskList::update` -/

namespace TaskList

theorem length_updateLoop (c : Bool) (f ps r nt : Nat) (ts : List Task) (i : Nat) :
    (updateLoop c f ps r nt i ts).length = ts.length := by
  induction ts generalizing i with
  | nil => rfl
  | cons t ts ih => simp [updateLoop, ih]

theorem getElem?_updateLoop (c : Bool) (f ps r nt : Nat) (ts : List Task) (i k : Nat) :
    (updateLoop c f ps r nt i ts)[k]? = (ts[k]?).map (updateTask c f ps r nt (i + k)) := by
  induction ts generalizing i k with
  | nil => simp [updateLoop]
  | cons t ts ih =>
    cases k with
    | zero => simp [updateLoop]
    | succ k =>
      simp only [updateLoop, List.getElem?_cons_succ]
      rw [ih (i + 1) k]
      have e : i + 1 + k = i + (k + 1) := by omega
      rw [e]

theorem length_vectorResize (v : List Int) (n : Nat) : (vectorResize v n).length = n := by
  simp only [vectorResize, List.length_append, List.length_take, List.length_replicate]
  omega

/-- The bounds that keep every `size_t` operation of one loop iteration exact. -/
theorem partition_bounds (f l nt i : Nat) (hi : i < nt) :
    i * ((l - f) / nt) ≤ l - f ∧ (i + 1) * ((l - f) / nt) ≤ l - f ∧
      (i + 1 = nt → (i + 1) * ((l - f) / nt) + (l - f) % nt = l - f) ∧
      (l - f) % nt < nt := by
  have hdm : nt * ((l - f) / nt) + (l - f) % nt = l - f := Nat.div_add_mod (l - f) nt
  have h1 : (i + 1) * ((l - f) / nt) ≤ nt * ((l - f) / nt) := Nat.mul_le_mul_right _ (by omega)
  have h0 : i * ((l - f) / nt) ≤ (i + 1) * ((l - f) / nt) := Nat.mul_le_mul_right _ (by omega)
  have hr : (l - f) % nt < nt := Nat.mod_lt _ (by omega)
  refine ⟨by omega, by omega, ?_, hr⟩
  intro h
  rw [h]
  exact hdm

theorem firstParticle_updateTask (c : Bool) {f l nt i : Nat} (t : Task)
    (hfl : f ≤ l) (hl : l < SIZE_T_MOD) (hi : i < nt) :
    (updateTask c f ((l - f) / nt) ((l - f) % nt) nt i t).firstParticle = f + i * ((l - f) / nt) := by
  obtain ⟨h0, _, _, _⟩ := partition_bounds f l nt i hi
  have e1 : mulSz i ((l - f) / nt) = i * ((l - f) / nt) := mulSz_eq_of_lt (by omega)
  have e2 : addSz f (i * ((l - f) / nt)) = f + i * ((l - f) / nt) := addSz_eq_of_lt (by omega)
  cases c <;> simp [updateTask, Task.resize, e1, e2]

theorem lastParticle_updateTask (c : Bool) {f l nt i : Nat} (t : Task)
    (hfl : f ≤ l) (hl : l < SIZE_T_MOD) (hnt : nt < SIZE_T_MOD) (hi : i < nt) :
    (updateTask c f ((l - f) / nt) ((l - f) % nt) nt i t).lastParticle =
      f + (i + 1) * ((l - f) / nt) + (if i + 1 = nt then (l - f) % nt else 0) := by
  obtain ⟨_, h1, h2, _⟩ := partition_bounds f l nt i hi
  have e0 : addSz i 1 = i + 1 := addSz_eq_of_lt (by omega)
  have e1 : mulSz (i + 1) ((l - f) / nt) = (i + 1) * ((l - f) / nt) := mulSz_eq_of_lt (by omega)
  have e2 : addSz f ((i + 1) * ((l - f) / nt)) = f + (i + 1) * ((l - f) / nt) :=
    addSz_eq_of_lt (by omega)
  have e3 : subSz nt 1 = nt - 1 := subSz_eq_of_le (by omega) hnt
  have e4 : (i = nt - 1) = (i + 1 = nt) := by
    apply propext
    omega
  have e5 : addSz (f + (i + 1) * ((l - f) / nt)) (if i + 1 = nt then (l - f) % nt else 0) =
      f + (i + 1) * ((l - f) / nt) + (if i + 1 = nt then (l - f) % nt else 0) := by
    apply addSz_eq_of_lt
    split
    · rename_i h
      have := h2 h
      omega
    · omega
  cases c <;> simp [updateTask, Task.resize, e0, e1, e2, e3, e4, e5]

theorem ngmax_updateTask (c : Bool) (f ps r nt i : Nat) (t : Task) :
    (updateTask c f ps r nt i t).ngmax = t.ngmax ∧ (updateTask c f ps r nt i t).ng0 = t.ng0 := by
  cases c <;> simp [updateTask, Task.resize]

theorem buffers_updateTask (c : Bool) (f ps r nt i : Nat) (t : Task) :
    (updateTask c f ps r nt i t).neighborsCount.length = (updateTask c f ps r nt i t).size ∧
      (c = false → (updateTask c f ps r nt i t).neighbors.length =
        mulSz (updateTask c f ps r nt i t).size t.ngmax) ∧
      (c = true → (updateTask c f ps r nt i t).neighbors = t.neighbors) := by
  cases c <;> simp [updateTask, Task.resize, Task.size, length_vectorResize]

/-- What `update` returns: it succeeds exactly when there is a task, and the new
task list is the old one with the loop body applied at every index. -/
theorem update_eq_some (c : Bool) (tl : TaskList) (f l : Nat) (hnt : 1 ≤ tl.tasks.length) :
    update c tl f l = some (TaskList.mk tl.ngmax tl.ng0
      (updateLoop c f (subSz l f / tl.tasks.length) (subSz l f % tl.tasks.length)
        tl.tasks.length 0 tl.tasks)) := by
  have h : ¬ tl.tasks.length = 0 := by omega
  simp [update, h]

/-- Every task of the result, with its range in closed form. -/
theorem update_ranges (c : Bool) (tl tl2 : TaskList) (f l : Nat)
    (hnt : 1 ≤ tl.tasks.length) (hntM : tl.tasks.length < SIZE_T_MOD)
    (hfl : f ≤ l) (hl : l < SIZE_T_MOD) (hu : update c tl f l = some tl2) :
    tl2.tasks.length = tl.tasks.length ∧ tl2.ngmax = tl.ngmax ∧ tl2.ng0 = tl.ng0 ∧
    ∀ i, i < tl.tasks.length → ∃ t0 t, tl.tasks[i]? = some t0 ∧ tl2.tasks[i]? = some t ∧
      t = updateTask c f ((l - f) / tl.tasks.length) ((l - f) % tl.tasks.length)
        tl.tasks.length i t0 ∧
      t.firstParticle = f + i * ((l - f) / tl.tasks.length) ∧
      t.lastParticle = f + (i + 1) * ((l - f) / tl.tasks.length) +
        (if i + 1 = tl.tasks.length then (l - f) % tl.tasks.length else 0) := by
  rw [update_eq_some c tl f l hnt, subSz_eq_of_le hfl hl] at hu
  have hu2 := (Option.some.inj hu).symm
  subst hu2
  refine ⟨length_updateLoop _ _ _ _ _ _ _, rfl, rfl, ?_⟩
  intro i hi
  refine ⟨tl.tasks[i], _, List.getElem?_eq_getElem hi, ?_, rfl, ?_, ?_⟩
  · simp [getElem?_updateLoop, List.getElem?_eq_getElem hi]
  · exact firstParticle_updateTask c _ hfl hl hi
  · exact lastParticle_updateTask c _ hfl hl hntM hi

/-- A point between the first and the last of a sequence of boundaries lies in a cell. -/
theorem exists_cell (b : Nat → Nat) (n x : Nat) (h0 : b 0 ≤ x) (hn : x < b n) :
    ∃ i, i < n ∧ b i ≤ x ∧ x < b (i + 1) := by
  induction n with
  | zero => omega
  | succ n ih =>
    by_cases h : x < b n
    · obtain ⟨i, hi, h1, h2⟩ := ih h
      exact ⟨i, by omega, h1, h2⟩
    · exact ⟨n, by omega, by omega, hn⟩

/-- The closed-form ranges are ordered: a task that comes earlier ends before a later
one starts. -/
theorem range_ordered (f l nt : Nat) {i j : Nat} (hij : i < j) (hj : j < nt) :
    f + (i + 1) * ((l - f) / nt) + (if i + 1 = nt then (l - f) % nt else 0) ≤
      f + j * ((l - f) / nt) := by
  have h1 : (i + 1) * ((l - f) / nt) ≤ j * ((l - f) / nt) := Nat.mul_le_mul_right _ (by omega)
  have h2 : ¬ (i + 1 = nt) := by omega
  simp only [h2, if_false]
  omega

/-- The size of every task of the result, in closed form. -/
theorem update_sizes (c : Bool) (tl tl2 : TaskList) (f l : Nat)
    (hnt : 1 ≤ tl.tasks.length) (hntM : tl.tasks.length < SIZE_T_MOD)
    (hfl : f ≤ l) (hl : l < SIZE_T_MOD) (hu : update c tl f l = some tl2)
    (i : Nat) (t : Task) (ht : tl2.tasks[i]? = some t) :
    i < tl.tasks.length ∧ t.firstParticle ≤ t.lastParticle ∧ t.lastParticle ≤ l ∧
      t.size = t.lastParticle - t.firstParticle ∧
      t.size = (l - f) / tl.tasks.length +
        (if i + 1 = tl.tasks.length then (l - f) % tl.tasks.length else 0) := by
  obtain ⟨hlen, -, -, hr⟩ := update_ranges c tl tl2 f l hnt hntM hfl hl hu
  have hi : i < tl.tasks.length := by
    have := (List.getElem?_eq_some_iff.mp ht).1
    omega
  obtain ⟨_, t2, _, ht2, _, htf, htl⟩ := hr i hi
  have htt : t2 = t := Option.some.inj (ht2.symm.trans ht)
  subst htt
  obtain ⟨_, h1, h2, _⟩ := partition_bounds f l tl.tasks.length i hi
  generalize (l - f) / tl.tasks.length = ps at *
  generalize (l - f) % tl.tasks.length = r at *
  have hmul : (i + 1) * ps = i * ps + ps := by ring
  have hle : t2.lastParticle ≤ l := by
    rw [htl]
    split
    · rename_i h
      have := h2 h
      omega
    · omega
  have hfl2 : t2.firstParticle ≤ t2.lastParticle := by
    rw [htf, htl]
    omega
  have hsz : t2.size = t2.lastParticle - t2.firstParticle :=
    subSz_eq_of_le hfl2 (by omega)
  refine ⟨hi, hfl2, hle, hsz, ?_⟩
  rw [hsz, htf, htl]
  omega

end TaskList

/-- C1: for a task list with `1 ≤ numTasks` tasks and `firstIndex ≤ lastIndex`,
`TaskList::update` returns, keeps the number of tasks, and its ranges tile
`[firstIndex, lastIndex)`: the first task starts at `firstIndex`, each task ends where
the next one starts, the last task ends at `lastIndex`, every index of the window lies
in the half-open range of exactly one task, and no index outside it lies in any. -/
theorem TaskList.update_tiles_window (c : Bool) (tl : TaskList) (f l : Nat)
    (hnt : 1 ≤ tl.tasks.length) (hntM : tl.tasks.length < SIZE_T_MOD)
    (hfl : f ≤ l) (hl : l < SIZE_T_MOD) :
    ∃ tl2 : TaskList, TaskList.update c tl f l = some tl2 ∧
      tl2.tasks.length = tl.tasks.length ∧
      (∃ t : Task, tl2.tasks[0]? = some t ∧ t.firstParticle = f) ∧
      (∀ i : Nat, i + 1 < tl.tasks.length → ∃ t u : Task, tl2.tasks[i]? = some t ∧
        tl2.tasks[i + 1]? = some u ∧ t.lastParticle = u.firstParticle) ∧
      (∃ t : Task, tl2.tasks[tl.tasks.length - 1]? = some t ∧ t.lastParticle = l) ∧
      (∀ x : Nat, f ≤ x → x < l →
        ∃! i : Nat, ∃ t : Task, tl2.tasks[i]? = some t ∧ t.firstParticle ≤ x ∧ x < t.lastParticle) ∧
      (∀ (i : Nat) (t : Task) (x : Nat), tl2.tasks[i]? = some t → t.firstParticle ≤ x →
        x < t.lastParticle → f ≤ x ∧ x < l) := by
  refine ⟨_, TaskList.update_eq_some c tl f l hnt, ?_⟩
  obtain ⟨hlen, -, -, hr⟩ :=
    TaskList.update_ranges c tl _ f l hnt hntM hfl hl (TaskList.update_eq_some c tl f l hnt)
  generalize (TaskList.mk tl.ngmax tl.ng0 _) = tl2 at hlen hr ⊢
  generalize hnt' : tl.tasks.length = nt at *
  generalize hps : (l - f) / nt = ps at *
  generalize hrm : (l - f) % nt = r at *
  have hdm : nt * ps + r = l - f := by rw [← hps, ← hrm]; exact Nat.div_add_mod (l - f) nt
  -- the range of task `i`, with the last task's end rewritten to `l`
  have hlast : ∀ i, i + 1 = nt → f + (i + 1) * ps + (if i + 1 = nt then r else 0) = l := by
    intro i hi
    simp only [hi, if_true]
    omega
  have hmid : ∀ i, i + 1 < nt → f + (i + 1) * ps + (if i + 1 = nt then r else 0) =
      f + (i + 1) * ps := by
    intro i hi
    have : ¬ (i + 1 = nt) := by omega
    simp [this]
  refine ⟨hlen, ?_, ?_, ?_, ?_, ?_⟩
  · obtain ⟨_, t, _, h2, _, h3, _⟩ := hr 0 (by omega)
    exact ⟨t, h2, by simpa using h3⟩
  · intro i hi
    obtain ⟨_, t, _, ht, _, _, htl⟩ := hr i (by omega)
    obtain ⟨_, u, _, hu, _, huf, _⟩ := hr (i + 1) hi
    exact ⟨t, u, ht, hu, by rw [htl, huf, hmid i hi]⟩
  · obtain ⟨_, t, _, ht, _, _, htl⟩ := hr (nt - 1) (by omega)
    refine ⟨t, ht, ?_⟩
    have e : nt - 1 + 1 = nt := by omega
    rw [htl, hlast (nt - 1) e]
  · intro x hfx hxl
    obtain ⟨i, hi, hb0, hb1⟩ := TaskList.exists_cell
      (fun k => if k < nt then f + k * ps else l) nt x
      (by simp only [show 0 < nt from by omega, if_true]; omega)
      (by simp only [lt_irrefl, if_false]; exact hxl)
    obtain ⟨_, t, _, ht, _, htf, htl⟩ := hr i hi
    simp only [hi, if_true] at hb0
    have hxt : x < t.lastParticle := by
      rw [htl]
      by_cases hin : i + 1 < nt
      · simp only [hin, if_true] at hb1
        rw [hmid i hin]
        exact hb1
      · simp only [hin, if_false] at hb1
        rw [hlast i (by omega)]
        exact hb1
    refine ⟨i, ⟨t, ht, by omega, hxt⟩, ?_⟩
    rintro j ⟨u, hu, huf, hul⟩
    have hj : j < nt := by
      have := (List.getElem?_eq_some_iff.mp hu).1
      omega
    obtain ⟨_, u2, _, hu2, _, hu2f, hu2l⟩ := hr j hj
    have huu : u2 = u := Option.some.inj (hu2.symm.trans hu)
    subst huu
    rcases Nat.lt_trichotomy j i with h | h | h
    · have := TaskList.range_ordered f l nt h hi
      rw [hps, hrm] at this
      omega
    · exact h
    · have := TaskList.range_ordered f l nt h hj
      rw [hps, hrm] at this
      omega
  · intro i t x ht h1 h2
    have hi : i < nt := by
      have := (List.getElem?_eq_some_iff.mp ht).1
      omega
    obtain ⟨_, t2, _, ht2, _, htf, htl⟩ := hr i hi
    have htt : t2 = t := Option.some.inj (ht2.symm.trans ht)
    subst htt
    have hb : (i + 1) * ps ≤ nt * ps := Nat.mul_le_mul_right _ (by omega)
    have hle : f + (i + 1) * ps + (if i + 1 = nt then r else 0) ≤ l := by
      by_cases hin : i + 1 < nt
      · rw [hmid i hin]; omega
      · rw [hlast i (by omega)]
    omega

/-- Witness for C1: three tasks over the window `[0, 10)`. -/
theorem TaskList.update_tiles_window_witness :
    (1 ≤ (TaskList.new 3 4 2).tasks.length ∧ (TaskList.new 3 4 2).tasks.length < SIZE_T_MOD ∧
      0 ≤ 10 ∧ 10 < SIZE_T_MOD) ∧
    ∃ tl2 : TaskList, TaskList.update false (TaskList.new 3 4 2) 0 10 = some tl2 ∧
      ∀ x : Nat, 0 ≤ x → x < 10 →
        ∃! i : Nat, ∃ t : Task, tl2.tasks[i]? = some t ∧ t.firstParticle ≤ x ∧
          x < t.lastParticle :=
  ⟨⟨by decide, by decide, by decide, by decide⟩, by
    obtain ⟨tl2, h1, _, _, _, _, h6, _⟩ :=
      TaskList.update_tiles_window false (TaskList.new 3 4 2) 0 10
        (by decide) (by decide) (by decide) (by decide)
    exact ⟨tl2, h1, h6⟩⟩

/-- C2 as stated fails: four tasks over `[0, 7)` get the sizes `1, 1, 1, 4`, so the
first and the last task differ by three elements. -/
theorem TaskList.update_sizes_counterexample :
    (1 ≤ (TaskList.new 4 1 1).tasks.length ∧ 0 ≤ 7) ∧
    (TaskList.update false (TaskList.new 4 1 1) 0 7).map (fun tl2 => tl2.tasks.map Task.size)
      = some [1, 1, 1, 4] ∧
    ¬ (∀ tl2 : TaskList, TaskList.update false (TaskList.new 4 1 1) 0 7 = some tl2 →
        ∀ t ∈ tl2.tasks, ∀ u ∈ tl2.tasks, t.size ≤ u.size + 1) := by
  refine ⟨⟨by decide, by decide⟩, by decide, ?_⟩
  intro h
  have h2 := h _ (TaskList.update_eq_some false (TaskList.new 4 1 1) 0 7 (by decide))
  revert h2
  decide

/-- C2, amended: after `TaskList::update` every task but the last has size
`partitionSize = (lastIndex - firstIndex) / numTasks`, the last task has size
`partitionSize + remainder` with `remainder = (lastIndex - firstIndex) % numTasks`, so
the sizes of any two tasks differ by at most `remainder`, which is smaller than
`numTasks`. -/
theorem TaskList.update_sizes_differ_by_remainder (c : Bool) (tl : TaskList) (f l : Nat)
    (hnt : 1 ≤ tl.tasks.length) (hntM : tl.tasks.length < SIZE_T_MOD)
    (hfl : f ≤ l) (hl : l < SIZE_T_MOD) :
    ∃ tl2 : TaskList, TaskList.update c tl f l = some tl2 ∧
      tl2.tasks.length = tl.tasks.length ∧
      (l - f) % tl.tasks.length < tl.tasks.length ∧
      (∀ i : Nat, i + 1 < tl.tasks.length → ∃ t : Task, tl2.tasks[i]? = some t ∧
        t.size = (l - f) / tl.tasks.length) ∧
      (∃ t : Task, tl2.tasks[tl.tasks.length - 1]? = some t ∧
        t.size = (l - f) / tl.tasks.length + (l - f) % tl.tasks.length) ∧
      (∀ (i j : Nat) (t u : Task), tl2.tasks[i]? = some t → tl2.tasks[j]? = some u →
        t.size ≤ u.size + (l - f) % tl.tasks.length ∧
        (i + 1 < tl.tasks.length → j + 1 < tl.tasks.length → t.size = u.size) ∧
        (i + 1 < tl.tasks.length → j + 1 = tl.tasks.length →
          u.size = t.size + (l - f) % tl.tasks.length)) := by
  have hu := TaskList.update_eq_some c tl f l hnt
  obtain ⟨hlen, -, -, hr⟩ := TaskList.update_ranges c tl _ f l hnt hntM hfl hl hu
  refine ⟨_, hu, hlen, Nat.mod_lt _ (by omega), ?_, ?_, ?_⟩
  · intro i hi
    obtain ⟨_, t, _, ht, -⟩ := hr i (by omega)
    obtain ⟨-, -, -, -, hst⟩ := TaskList.update_sizes c tl _ f l hnt hntM hfl hl hu i t ht
    have e : ¬ (i + 1 = tl.tasks.length) := by omega
    simp only [e, if_false, Nat.add_zero] at hst
    exact ⟨t, ht, hst⟩
  · obtain ⟨_, t, _, ht, -⟩ := hr (tl.tasks.length - 1) (by omega)
    obtain ⟨-, -, -, -, hst⟩ :=
      TaskList.update_sizes c tl _ f l hnt hntM hfl hl hu (tl.tasks.length - 1) t ht
    have e : tl.tasks.length - 1 + 1 = tl.tasks.length := by omega
    simp only [e, if_true] at hst
    exact ⟨t, ht, hst⟩
  · intro i j t u ht hu2
    obtain ⟨hi, -, -, -, hst⟩ := TaskList.update_sizes c tl _ f l hnt hntM hfl hl hu i t ht
    obtain ⟨hj, -, -, -, hsu⟩ := TaskList.update_sizes c tl _ f l hnt hntM hfl hl hu j u hu2
    rw [hst, hsu]
    refine ⟨?_, ?_, ?_⟩
    · split <;> split <;> omega
    · intro h1 h2
      have e1 : ¬ (i + 1 = tl.tasks.length) := by omega
      have e2 : ¬ (j + 1 = tl.tasks.length) := by omega
      simp [e1, e2]
    · intro h1 h2
      have e1 : ¬ (i + 1 = tl.tasks.length) := by omega
      simp [e1, h2]

/-- Witness for the amended C2: four tasks over `[0, 7)`. -/
theorem TaskList.update_sizes_differ_by_remainder_witness :
    (1 ≤ (TaskList.new 4 1 1).tasks.length ∧ (TaskList.new 4 1 1).tasks.length < SIZE_T_MOD ∧
      0 ≤ 7 ∧ 7 < SIZE_T_MOD) ∧
    (∃ tl2 : TaskList, TaskList.update false (TaskList.new 4 1 1) 0 7 = some tl2 ∧
      (∃ t : Task, tl2.tasks[0]? = some t ∧
        t.size = (7 - 0) / (TaskList.new 4 1 1).tasks.length) ∧
      (∃ t : Task, tl2.tasks[(TaskList.new 4 1 1).tasks.length - 1]? = some t ∧
        t.size = (7 - 0) / (TaskList.new 4 1 1).tasks.length +
          (7 - 0) % (TaskList.new 4 1 1).tasks.length)) ∧
    (7 - 0) / (TaskList.new 4 1 1).tasks.length = 1 ∧
    (7 - 0) % (TaskList.new 4 1 1).tasks.length = 3 :=
  ⟨⟨by decide, by decide, by decide, by decide⟩, by
    obtain ⟨tl2, h1, _, _, h4, h5, _⟩ :=
      TaskList.update_sizes_differ_by_remainder false (TaskList.new 4 1 1) 0 7
        (by decide) (by decide) (by decide) (by decide)
    exact ⟨tl2, h1, h4 0 (by decide), h5⟩, by decide, by decide⟩

/-- C3: with `partitionSize = (lastIndex - firstIndex) / numTasks` and
`remainder = (lastIndex - firstIndex) % numTasks`, `TaskList::update` gives task `i` the
range `[firstIndex + i * partitionSize, firstIndex + (i + 1) * partitionSize)` for every
`i < numTasks - 1`, and the last task the range
`[firstIndex + (numTasks - 1) * partitionSize, firstIndex + numTasks * partitionSize + remainder)`;
every task but the last has size `partitionSize` and no task is larger than the last. -/
theorem TaskList.update_closed_form (c : Bool) (tl : TaskList) (f l : Nat)
    (hnt : 1 ≤ tl.tasks.length) (hntM : tl.tasks.length < SIZE_T_MOD)
    (hfl : f ≤ l) (hl : l < SIZE_T_MOD) :
    ∃ tl2 : TaskList, TaskList.update c tl f l = some tl2 ∧
      tl2.tasks.length = tl.tasks.length ∧
      (∀ i : Nat, i + 1 < tl.tasks.length → ∃ t : Task, tl2.tasks[i]? = some t ∧
        t.firstParticle = f + i * ((l - f) / tl.tasks.length) ∧
        t.lastParticle = f + (i + 1) * ((l - f) / tl.tasks.length) ∧
        t.size = (l - f) / tl.tasks.length) ∧
      (∃ t : Task, tl2.tasks[tl.tasks.length - 1]? = some t ∧
        t.firstParticle = f + (tl.tasks.length - 1) * ((l - f) / tl.tasks.length) ∧
        t.lastParticle =
          f + tl.tasks.length * ((l - f) / tl.tasks.length) + (l - f) % tl.tasks.length ∧
        t.size = (l - f) / tl.tasks.length + (l - f) % tl.tasks.length ∧
        ∀ (i : Nat) (u : Task), tl2.tasks[i]? = some u → u.size ≤ t.size) := by
  have hu := TaskList.update_eq_some c tl f l hnt
  obtain ⟨hlen, -, -, hr⟩ := TaskList.update_ranges c tl _ f l hnt hntM hfl hl hu
  refine ⟨_, hu, hlen, ?_, ?_⟩
  · intro i hi
    obtain ⟨_, t, _, ht, _, htf, htl⟩ := hr i (by omega)
    obtain ⟨-, -, -, -, hsz⟩ := TaskList.update_sizes c tl _ f l hnt hntM hfl hl hu i t ht
    have e : ¬ (i + 1 = tl.tasks.length) := by omega
    simp only [e, if_false, Nat.add_zero] at htl hsz
    exact ⟨t, ht, htf, htl, hsz⟩
  · obtain ⟨_, t, _, ht, _, htf, htl⟩ := hr (tl.tasks.length - 1) (by omega)
    obtain ⟨-, -, -, -, hsz⟩ :=
      TaskList.update_sizes c tl _ f l hnt hntM hfl hl hu (tl.tasks.length - 1) t ht
    have e : tl.tasks.length - 1 + 1 = tl.tasks.length := by omega
    simp only [e, if_true] at htl hsz
    refine ⟨t, ht, htf, htl, hsz, ?_⟩
    intro i u hu2
    obtain ⟨-, -, -, -, hsu⟩ := TaskList.update_sizes c tl _ f l hnt hntM hfl hl hu i u hu2
    rw [hsu, hsz]
    split <;> omega

/-- Witness for C3: `firstIndex = 0`, `lastIndex = 10`, three tasks; the ranges are
`[0,3)`, `[3,6)`, `[6,10)`. -/
theorem TaskList.update_closed_form_witness :
    (1 ≤ (TaskList.new 3 4 2).tasks.length ∧ (TaskList.new 3 4 2).tasks.length < SIZE_T_MOD ∧
      0 ≤ 10 ∧ 10 < SIZE_T_MOD) ∧
    (∃ tl2 : TaskList, TaskList.update false (TaskList.new 3 4 2) 0 10 = some tl2 ∧
      ∃ t : Task, tl2.tasks[(TaskList.new 3 4 2).tasks.length - 1]? = some t ∧
        t.size = (10 - 0) / (TaskList.new 3 4 2).tasks.length +
          (10 - 0) % (TaskList.new 3 4 2).tasks.length) ∧
    (TaskList.update false (TaskList.new 3 4 2) 0 10).map
        (fun tl2 => tl2.tasks.map (fun t => (t.firstParticle, t.lastParticle, t.size)))
      = some [(0, 3, 3), (3, 6, 3), (6, 10, 4)] :=
  ⟨⟨by decide, by decide, by decide, by decide⟩, by
    obtain ⟨tl2, h1, _, _, t, h2, _, _, h3, _⟩ :=
      TaskList.update_closed_form false (TaskList.new 3 4 2) 0 10
        (by decide) (by decide) (by decide) (by decide)
    exact ⟨tl2, h1, t, h2, h3⟩, by decide⟩

/-- C4 as stated fails: in the host build one task with `ngmax = 2 ^ 63` over the window
`[0, 2)` has `size() = 2` and, the product wrapping to zero in `size_t`, an empty
neighbor-index buffer, not one of `2 * 2 ^ 63` elements. -/
theorem TaskList.update_buffers_counterexample :
    (1 ≤ (TaskList.new 1 (2 ^ 63) 1).tasks.length ∧ 0 ≤ 2) ∧
    (TaskList.update false (TaskList.new 1 (2 ^ 63) 1) 0 2).map
        (fun tl2 => tl2.tasks.map (fun t => (t.size, t.ngmax, t.neighbors.length)))
      = some [(2, 2 ^ 63, 0)] ∧
    ¬ (∀ tl2 : TaskList, TaskList.update false (TaskList.new 1 (2 ^ 63) 1) 0 2 = some tl2 →
        ∀ t ∈ tl2.tasks, t.neighbors.length = t.size * t.ngmax) := by
  refine ⟨⟨by decide, by decide⟩, by decide, ?_⟩
  intro h
  have h2 := h _ (TaskList.update_eq_some false (TaskList.new 1 (2 ^ 63) 1) 0 2 (by decide))
  revert h2
  decide

/-- C4, amended: whatever its tasks held before, after `TaskList::update` on a list of
`1 ≤ numTasks` tasks with `firstIndex ≤ lastIndex` every task has
`firstParticle ≤ lastParticle`, `size() = lastParticle - firstParticle`, a neighbor-count
buffer of length `size()` and, in the host build, a neighbor-index buffer whose length is
`size() * ngmax` reduced modulo `2 ^ 64`, which is exactly `size() * ngmax` whenever that
product is below `2 ^ 64`; `ngmax`, `ng0`, of the list and of every task, and the number
of tasks are unchanged. -/
theorem TaskList.update_buffers (c : Bool) (tl : TaskList) (f l : Nat)
    (hnt : 1 ≤ tl.tasks.length) (hntM : tl.tasks.length < SIZE_T_MOD)
    (hfl : f ≤ l) (hl : l < SIZE_T_MOD) :
    ∃ tl2 : TaskList, TaskList.update c tl f l = some tl2 ∧
      tl2.ngmax = tl.ngmax ∧ tl2.ng0 = tl.ng0 ∧ tl2.tasks.length = tl.tasks.length ∧
      ∀ (i : Nat) (t : Task), tl2.tasks[i]? = some t →
        t.firstParticle ≤ t.lastParticle ∧
        t.size = t.lastParticle - t.firstParticle ∧
        t.neighborsCount.length = t.size ∧
        (c = false → t.neighbors.length = mulSz t.size t.ngmax ∧
          (t.size * t.ngmax < SIZE_T_MOD → t.neighbors.length = t.size * t.ngmax)) ∧
        (∃ t0 : Task, tl.tasks[i]? = some t0 ∧ t.ngmax = t0.ngmax ∧ t.ng0 = t0.ng0) := by
  have hu := TaskList.update_eq_some c tl f l hnt
  obtain ⟨hlen, hg, hg0, hr⟩ := TaskList.update_ranges c tl _ f l hnt hntM hfl hl hu
  refine ⟨_, hu, hg, hg0, hlen, ?_⟩
  intro i t ht
  obtain ⟨hi, hfl2, -, hsz, -⟩ := TaskList.update_sizes c tl _ f l hnt hntM hfl hl hu i t ht
  obtain ⟨t0, t2, ht0, ht2, hdef, -, -⟩ := hr i hi
  have htt : t2 = t := Option.some.inj (ht2.symm.trans ht)
  subst htt
  obtain ⟨hb1, hb2, -⟩ := TaskList.buffers_updateTask c f ((l - f) / tl.tasks.length)
    ((l - f) % tl.tasks.length) tl.tasks.length i t0
  obtain ⟨hn1, hn2⟩ := TaskList.ngmax_updateTask c f ((l - f) / tl.tasks.length)
    ((l - f) % tl.tasks.length) tl.tasks.length i t0
  rw [← hdef] at hb1 hb2 hn1 hn2
  refine ⟨hfl2, hsz, hb1, ?_, ⟨t0, ht0, hn1, hn2⟩⟩
  intro hc
  have h := hb2 hc
  rw [← hn1] at h
  exact ⟨h, fun hlt => by rw [h, mulSz_eq_of_lt hlt]⟩

/-- Witness for the amended C4: a host-build list of two tasks that held stale ranges and buffers. -/
theorem TaskList.update_buffers_witness :
    (1 ≤ (TaskList.mk 4 2 [Task.mk 4 2 9 3 [1, 2, 3] [], Task.mk 4 2 0 0 [] [7]]).tasks.length ∧
      (TaskList.mk 4 2 [Task.mk 4 2 9 3 [1, 2, 3] [], Task.mk 4 2 0 0 [] [7]]).tasks.length
        < SIZE_T_MOD ∧ 5 ≤ 10 ∧ 10 < SIZE_T_MOD) ∧
    (∃ tl2 : TaskList,
      TaskList.update false
        (TaskList.mk 4 2 [Task.mk 4 2 9 3 [1, 2, 3] [], Task.mk 4 2 0 0 [] [7]]) 5 10 = some tl2 ∧
      tl2.ngmax = 4 ∧ tl2.ng0 = 2 ∧ tl2.tasks.length = 2) ∧
    (TaskList.update false
        (TaskList.mk 4 2 [Task.mk 4 2 9 3 [1, 2, 3] [], Task.mk 4 2 0 0 [] [7]]) 5 10).map
        (fun tl2 => tl2.tasks.map
          (fun t => (t.firstParticle, t.lastParticle, t.neighborsCount.length, t.neighbors.length)))
      = some [(5, 7, 2, 8), (7, 10, 3, 12)] :=
  ⟨⟨by decide, by decide, by decide, by decide⟩, by
    obtain ⟨tl2, h1, h2, h3, h4, _⟩ :=
      TaskList.update_buffers false
        (TaskList.mk 4 2 [Task.mk 4 2 9 3 [1, 2, 3] [], Task.mk 4 2 0 0 [] [7]]) 5 10
        (by decide) (by decide) (by decide) (by decide)
    exact ⟨tl2, h1, h2, h3, h4⟩, by decide⟩

/-! ## Proofs: `file_utils.hpp` -/

namespace fileutils

theorem details.writeParticleDataToBinFile_append (file : List Byte) (data : List Buffer) :
    details.writeParticleDataToBinFile file data =
      file ++ details.writeParticleDataToBinFile [] data := by
  induction data generalizing file with
  | nil => simp [details.writeParticleDataToBinFile]
  | cons b bs ih =>
    simp only [details.writeParticleDataToBinFile, ostreamWrite, List.nil_append]
    rw [ih (file ++ _), ih (List.take _ _), List.append_assoc]

/-- Reading a well-formed buffer's worth of bytes that a stream starts with: the buffer
receives exactly these bytes and the stream stays good. -/
theorem istreamRead_prefix (src mem rest : List Byte) (count : Nat)
    (hs : src.length = count) (hm : mem.length = count) :
    istreamRead { good := true, rest := src ++ rest } mem count =
      ({ good := true, rest := rest }, src) := by
  subst hs
  simp [istreamRead, hm]

/-- The variadic reader undoes the variadic writer on buffers of the same shapes,
whatever follows in the stream. -/
theorem details.read_write (data bufs : List Buffer) (rest : List Byte)
    (wfd : ∀ b ∈ data, b.WellFormed) (wfb : ∀ b ∈ bufs, b.WellFormed)
    (hshape : bufs.map Buffer.shape = data.map Buffer.shape) :
    details.readParticleDataFromBinFile
        { good := true, rest := details.writeParticleDataToBinFile [] data ++ rest } bufs =
      ({ good := true, rest := rest }, data) := by
  induction data generalizing bufs with
  | nil =>
    cases bufs with
    | nil => simp [details.readParticleDataFromBinFile, details.writeParticleDataToBinFile]
    | cons c cs => simp at hshape
  | cons b bs ih =>
    cases bufs with
    | nil => simp at hshape
    | cons c cs =>
      simp only [List.map_cons, List.cons.injEq, Buffer.shape, Prod.mk.injEq] at hshape
      obtain ⟨⟨he, hsz⟩, hrest⟩ := hshape
      have hb : b.bytes.length = b.size * b.elemSize := wfd b (List.mem_cons_self _ _)
      have hc : c.bytes.length = c.size * c.elemSize := wfb c (List.mem_cons_self _ _)
      have hw : details.writeParticleDataToBinFile [] (b :: bs) =
          b.bytes ++ details.writeParticleDataToBinFile [] bs := by
        simp only [details.writeParticleDataToBinFile, ostreamWrite, List.nil_append]
        rw [details.writeParticleDataToBinFile_append, ← hb, List.take_length]
      have hr := istreamRead_prefix b.bytes c.bytes
        (details.writeParticleDataToBinFile [] bs ++ rest) (c.size * c.elemSize)
        (by rw [hb, he, hsz]) hc
      have ih2 := ih cs (fun x hx => wfd x (List.mem_cons_of_mem _ hx))
        (fun x hx => wfb x (List.mem_cons_of_mem _ hx)) hrest
      simp only [details.readParticleDataFromBinFile, hw, List.append_assoc, hr, ih2]
      cases b
      cases c
      simp_all

end fileutils

/-- C5: a call of `readParticleDataFromAsciiFile` whose destination containers do not
all have the same length throws the size error and leaves every container exactly as it
was, whatever the file contains and whether or not it can be opened. -/
theorem fileutils.readParticleDataFromAsciiFile_size_guard (path : String)
    (file : Option (List (Option Int))) (data : List (List Int))
    (h : ∃ a ∈ data, ∃ b ∈ data, a.length ≠ b.length) :
    fileutils.readParticleDataFromAsciiFile path file data =
      some (.error (.runtimeError "Argument vector sizes to read into are not equal\n"), data) := by
  obtain ⟨a, ha, b, hb, hab⟩ := h
  cases data with
  | nil => simp at ha
  | cons first rest =>
    have hne : List.count first.length (List.map List.length (first :: rest)) ≠
        (List.map List.length (first :: rest)).length := by
      intro hc
      rw [List.count_eq_length] at hc
      have h1 := hc a.length (List.mem_map_of_mem _ ha)
      have h2 := hc b.length (List.mem_map_of_mem _ hb)
      omega
    simp only [fileutils.readParticleDataFromAsciiFile, List.map_cons] at hne ⊢
    rw [if_pos hne]

/-- Witness for C5: containers of lengths two and one, with a readable file. -/
theorem fileutils.readParticleDataFromAsciiFile_size_guard_witness :
    (∃ a ∈ [[1, 2], [3]], ∃ b ∈ [[1, 2], [3]], List.length a ≠ List.length b) ∧
    fileutils.readParticleDataFromAsciiFile "in.txt" (some [some 5, some 6, some 7])
        [[1, 2], [3]] =
      some (.error (.runtimeError "Argument vector sizes to read into are not equal\n"),
        [[1, 2], [3]]) :=
  ⟨by decide,
    fileutils.readParticleDataFromAsciiFile_size_guard "in.txt" (some [some 5, some 6, some 7])
      [[1, 2], [3]] (by decide)⟩

/-- C6 as stated fails: a checkpoint with the header `n = 1`, `ttot = 0`, `minDt = 0`
(eight bytes each) and one field holding the byte `7`, read back by
`readParticleDataFromBinFile` with the same field list, yields the first header byte `1`:
the reader does not skip the header. -/
theorem fileutils.checkpoint_round_trip_counterexample :
    fileutils.writeParticleCheckpointDataToBinFile
        ⟨[1, 0, 0, 0, 0, 0, 0, 0], [0, 0, 0, 0, 0, 0, 0, 0], [0, 0, 0, 0, 0, 0, 0, 0]⟩
        "chk.bin" true [⟨1, 1, [7]⟩] =
      .ok ([1, 0, 0, 0, 0, 0, 0, 0] ++ [0, 0, 0, 0, 0, 0, 0, 0] ++ [0, 0, 0, 0, 0, 0, 0, 0] ++ [7]) ∧
    fileutils.readParticleDataFromBinFile "chk.bin"
        (some ([1, 0, 0, 0, 0, 0, 0, 0] ++ [0, 0, 0, 0, 0, 0, 0, 0] ++ [0, 0, 0, 0, 0, 0, 0, 0] ++ [7]))
        [⟨1, 1, [0]⟩] = .ok [⟨1, 1, [1]⟩] ∧
    fileutils.readParticleDataFromBinFile "chk.bin"
        (some ([1, 0, 0, 0, 0, 0, 0, 0] ++ [0, 0, 0, 0, 0, 0, 0, 0] ++ [0, 0, 0, 0, 0, 0, 0, 0] ++ [7]))
        [⟨1, 1, [0]⟩] ≠ .ok [⟨1, 1, [7]⟩] := by
  refine ⟨rfl, rfl, ?_⟩
  intro h
  have h2 : (Except.ok [⟨1, 1, [1]⟩] : Except fileutils.Error (List fileutils.Buffer)) =
      Except.ok [⟨1, 1, [7]⟩] := h
  revert h2
  simp

/-- C6, amended: the stream written by `writeParticleCheckpointDataToBinFile` (the header
`n`, `ttot`, `minDt`, then every field in argument order), read back by
`readParticleDataFromBinFile` into three one-element buffers of the header widths
followed by buffers of the fields' lengths and element widths, reproduces the header
scalars and every field byte for byte; and the stream written by the header-less
`writeParticleDataToBinFile`, read back with the field list alone, reproduces every
field. -/
theorem fileutils.checkpoint_round_trip_with_header (d : fileutils.DatasetHeader)
    (path : String) (data bufs : List fileutils.Buffer) (bn bt bm : List fileutils.Byte)
    (wfd : ∀ b ∈ data, b.WellFormed) (wfb : ∀ b ∈ bufs, b.WellFormed)
    (hshape : bufs.map fileutils.Buffer.shape = data.map fileutils.Buffer.shape)
    (hn : bn.length = d.n.length) (ht : bt.length = d.ttot.length)
    (hm : bm.length = d.minDt.length) :
    (∃ content, fileutils.writeParticleCheckpointDataToBinFile d path true data = .ok content ∧
      fileutils.readParticleDataFromBinFile path (some content)
          (⟨d.n.length, 1, bn⟩ :: ⟨d.ttot.length, 1, bt⟩ :: ⟨d.minDt.length, 1, bm⟩ :: bufs) =
        .ok (⟨d.n.length, 1, d.n⟩ :: ⟨d.ttot.length, 1, d.ttot⟩ ::
          ⟨d.minDt.length, 1, d.minDt⟩ :: data)) ∧
    (∃ content, fileutils.writeParticleDataToBinFile path true data = .ok content ∧
      fileutils.readParticleDataFromBinFile path (some content) bufs = .ok data) := by
  constructor
  · refine ⟨_, rfl, ?_⟩
    have hw : fileutils.details.writeParticleDataToBinFile
        (fileutils.ostreamWrite (fileutils.ostreamWrite (fileutils.ostreamWrite [] d.n d.n.length)
          d.ttot d.ttot.length) d.minDt d.minDt.length) data =
        fileutils.details.writeParticleDataToBinFile []
          (⟨d.n.length, 1, d.n⟩ :: ⟨d.ttot.length, 1, d.ttot⟩ ::
            ⟨d.minDt.length, 1, d.minDt⟩ :: data) ++ [] := by
      simp only [fileutils.details.writeParticleDataToBinFile, fileutils.ostreamWrite,
        List.nil_append, Nat.one_mul, List.append_nil]
    have hrw := fileutils.details.read_write
      (⟨d.n.length, 1, d.n⟩ :: ⟨d.ttot.length, 1, d.ttot⟩ :: ⟨d.minDt.length, 1, d.minDt⟩ :: data)
      (⟨d.n.length, 1, bn⟩ :: ⟨d.ttot.length, 1, bt⟩ :: ⟨d.minDt.length, 1, bm⟩ :: bufs) []
      (by
        intro b hb
        simp only [List.mem_cons] at hb
        rcases hb with rfl | rfl | rfl | hb
        · simp [fileutils.Buffer.WellFormed]
        · simp [fileutils.Buffer.WellFormed]
        · simp [fileutils.Buffer.WellFormed]
        · exact wfd b hb)
      (by
        intro b hb
        simp only [List.mem_cons] at hb
        rcases hb with rfl | rfl | rfl | hb
        · simp [fileutils.Buffer.WellFormed, hn]
        · simp [fileutils.Buffer.WellFormed, ht]
        · simp [fileutils.Buffer.WellFormed, hm]
        · exact wfb b hb)
      (by simp [fileutils.Buffer.shape, hshape])
    simp only [fileutils.readParticleDataFromBinFile, hw, hrw]
  · refine ⟨_, rfl, ?_⟩
    have hrw := fileutils.details.read_write data bufs [] wfd wfb hshape
    rw [List.append_nil] at hrw
    simp only [fileutils.readParticleDataFromBinFile, hrw]

/-- Witness for the amended C6: a header of three one-byte scalars and two fields. -/
theorem fileutils.checkpoint_round_trip_with_header_witness :
    ((∀ b ∈ [(⟨2, 1, [7, 8]⟩ : fileutils.Buffer), ⟨1, 2, [5, 6]⟩], b.WellFormed) ∧
      (∀ b ∈ [(⟨2, 1, [0, 0]⟩ : fileutils.Buffer), ⟨1, 2, [0, 0]⟩], b.WellFormed)) ∧
    (∃ content,
      fileutils.writeParticleCheckpointDataToBinFile ⟨[1], [2], [3]⟩ "chk.bin" true
          [⟨2, 1, [7, 8]⟩, ⟨1, 2, [5, 6]⟩] = .ok content ∧
      fileutils.readParticleDataFromBinFile "chk.bin" (some content)
          (⟨1, 1, [0]⟩ :: ⟨1, 1, [0]⟩ :: ⟨1, 1, [0]⟩ :: [⟨2, 1, [0, 0]⟩, ⟨1, 2, [0, 0]⟩]) =
        .ok (⟨1, 1, [1]⟩ :: ⟨1, 1, [2]⟩ :: ⟨1, 1, [3]⟩ :: [⟨2, 1, [7, 8]⟩, ⟨1, 2, [5, 6]⟩])) :=
  ⟨⟨by decide, by decide⟩,
    (fileutils.checkpoint_round_trip_with_header ⟨[1], [2], [3]⟩ "chk.bin"
      [⟨2, 1, [7, 8]⟩, ⟨1, 2, [5, 6]⟩] [⟨2, 1, [0, 0]⟩, ⟨1, 2, [0, 0]⟩] [0] [0] [0]
      (by decide) (by decide) (by decide) (by decide) (by decide) (by decide)).1⟩

/-! ## Proofs: `turb_ve.hpp` -/

theorem findIdx_map_name {α β : Type} (f : α → β) (p : β → Bool) (l : List α) :
    (l.map f).findIdx p = l.findIdx (fun a => p (f a)) := by
  induction l with
  | nil => rfl
  | cons a l ih => simp [List.findIdx_cons, ih]

/-- What `step` does on instrumented stages, unfolded: the run after `computeForces`
succeeded, stage by stage. -/
theorem step_instrument_run {Dom D Box TD Timer : Type} (b : Stages Dom D Box TD Timer)
    (ng0 : Nat) (s : StepState Dom D TD Timer) (log : List (Call Box)) :
    step (instrument b) ng0 s log =
      Traced.bind ((instrument b).computeForces s.domain s.d s.timer) (fun r0 =>
      Traced.bind ((instrument b).computeTimestep r0.2.1) (fun d1 =>
      Traced.bind ((instrument b).timerStep r0.2.2 "Timestep") (fun timer1 =>
      Traced.bind ((instrument b).driveTurbulence (b.startIndex r0.1) (b.endIndex r0.1) d1
        s.turbulenceData) (fun r2 =>
      Traced.bind ((instrument b).timerStep timer1 "Turbulence Stirring") (fun timer2 =>
      Traced.bind ((instrument b).transferToHost r2.1 (b.startIndex r0.1) (b.endIndex r0.1)
        ["ax", "ay", "az", "du"]) (fun d3 =>
      Traced.bind ((instrument b).computePositions (b.startIndex r0.1) (b.endIndex r0.1) d3
        (b.box r0.1)) (fun d4 =>
      Traced.bind ((instrument b).timerStep timer2 "UpdateQuantities") (fun timer3 =>
      Traced.bind ((instrument b).updateSmoothingLength (b.startIndex r0.1) (b.endIndex r0.1)
        d4 ng0) (fun d5 =>
      Traced.bind ((instrument b).timerStep timer3 "UpdateSmoothingLength") (fun timer4 =>
      Traced.bind ((instrument b).timerStop timer4) (fun timer5 =>
        fun log1 => (log1, .ok ⟨r0.1, d5, timer5, r2.2⟩)))))))))))) log := rfl

/-- C7: a call of `TurbVeProp::step(domain, d)` on instrumented stages in which no stage
fails records exactly these invocations, in this order and each once:
`Base::computeForces`, `computeTimestep`, `driveTurbulence`, `transferToHost` of exactly
`ax`, `ay`, `az`, `du`, `computePositions` with `domain.box()`, `updateSmoothingLength`
with `ng0`, and the final `timer.stop()`, with the four `timer.step` checkpoints in
between; the stirring, transfer, integration and smoothing-length stages all receive the
window `[domain.startIndex(), domain.endIndex())` of the domain as `computeForces` leaves
it. -/
theorem step_stage_trace {Dom D Box TD Timer : Type} (b : Stages Dom D Box TD Timer)
    (ng0 : Nat) (s r : StepState Dom D TD Timer)
    (h : (step (instrument b) ng0 s []).2 = .ok r) :
    ∃ (domain : Dom) (d0 : D) (timer0 : Timer),
      b.computeForces s.domain s.d s.timer = .ok (domain, d0, timer0) ∧ r.domain = domain ∧
      (step (instrument b) ng0 s []).1 =
        [.computeForces, .computeTimestep, .timerStep "Timestep",
          .driveTurbulence (b.startIndex domain) (b.endIndex domain),
          .timerStep "Turbulence Stirring",
          .transferToHost (b.startIndex domain) (b.endIndex domain) ["ax", "ay", "az", "du"],
          .computePositions (b.startIndex domain) (b.endIndex domain) (b.box domain),
          .timerStep "UpdateQuantities",
          .updateSmoothingLength (b.startIndex domain) (b.endIndex domain) ng0,
          .timerStep "UpdateSmoothingLength", .timerStop] ∧
      (step (instrument b) ng0 s []).1.filter (fun c => !c.isTimerStep) =
        [.computeForces, .computeTimestep,
          .driveTurbulence (b.startIndex domain) (b.endIndex domain),
          .transferToHost (b.startIndex domain) (b.endIndex domain) ["ax", "ay", "az", "du"],
          .computePositions (b.startIndex domain) (b.endIndex domain) (b.box domain),
          .updateSmoothingLength (b.startIndex domain) (b.endIndex domain) ng0,
          .timerStop] := by
  rw [step_instrument_run] at h ⊢
  cases h1 : b.computeForces s.domain s.d s.timer with
  | error e => simp [Traced.bind, instrument, h1] at h
  | ok v =>
    obtain ⟨domain, d0, timer0⟩ := v
    cases h2 : b.computeTimestep d0 with
    | error e => simp [Traced.bind, instrument, h1, h2] at h
    | ok d1 =>
      cases h3 : b.driveTurbulence (b.startIndex domain) (b.endIndex domain) d1
          s.turbulenceData with
      | error e => simp [Traced.bind, instrument, h1, h2, h3] at h
      | ok w =>
        obtain ⟨d2, td⟩ := w
        cases h4 : b.transferToHost d2 (b.startIndex domain) (b.endIndex domain)
            ["ax", "ay", "az", "du"] with
        | error e => simp [Traced.bind, instrument, h1, h2, h3, h4] at h
        | ok d3 =>
          cases h5 : b.computePositions (b.startIndex domain) (b.endIndex domain) d3
              (b.box domain) with
          | error e => simp [Traced.bind, instrument, h1, h2, h3, h4, h5] at h
          | ok d4 =>
            cases h6 : b.updateSmoothingLength (b.startIndex domain) (b.endIndex domain)
                d4 ng0 with
            | error e => simp [Traced.bind, instrument, h1, h2, h3, h4, h5, h6] at h
            | ok d5 =>
              simp only [Traced.bind, instrument, h1, h2, h3, h4, h5, h6, Except.ok.injEq] at h
              refine ⟨domain, d0, timer0, rfl, ?_, ?_, ?_⟩
              · rw [← h]
              · simp [Traced.bind, instrument, h1, h2, h3, h4, h5, h6]
              · simp [Traced.bind, instrument, h1, h2, h3, h4, h5, h6, Call.isTimerStep]

/-- Witness for C7: stages that never fail, on a domain with the window `[2, 9)`. -/
theorem step_stage_trace_witness :
    (step (instrument idleStages) 100 ⟨(2, 9), (), (), ()⟩ []).2 = .ok ⟨(2, 9), (), (), ()⟩ ∧
    (∃ (domain : Nat × Nat) (d0 : Unit) (timer0 : Unit),
      idleStages.computeForces (2, 9) () () = .ok (domain, d0, timer0) ∧
      (step (instrument idleStages) 100 ⟨(2, 9), (), (), ()⟩ []).1.filter
          (fun c => !c.isTimerStep) =
        [.computeForces, .computeTimestep,
          .driveTurbulence (idleStages.startIndex domain) (idleStages.endIndex domain),
          .transferToHost (idleStages.startIndex domain) (idleStages.endIndex domain)
            ["ax", "ay", "az", "du"],
          .computePositions (idleStages.startIndex domain) (idleStages.endIndex domain)
            (idleStages.box domain),
          .updateSmoothingLength (idleStages.startIndex domain) (idleStages.endIndex domain) 100,
          .timerStop]) ∧
    (step (instrument idleStages) 100 ⟨(2, 9), (), (), ()⟩ []).1 =
      [.computeForces, .computeTimestep, .timerStep "Timestep", .driveTurbulence 2 9,
        .timerStep "Turbulence Stirring", .transferToHost 2 9 ["ax", "ay", "az", "du"],
        .computePositions 2 9 (), .timerStep "UpdateQuantities",
        .updateSmoothingLength 2 9 100, .timerStep "UpdateSmoothingLength", .timerStop] ∧
    step (instrument stirringFails) 100 ⟨(2, 9), (), (), ()⟩ [] =
      ([.computeForces, .computeTimestep, .timerStep "Timestep", .driveTurbulence 2 9],
        .error (.runtimeError "stirring failed")) :=
  ⟨rfl, by
    obtain ⟨domain, d0, timer0, h1, _, _, h4⟩ :=
      step_stage_trace idleStages 100 ⟨(2, 9), (), (), ()⟩ ⟨(2, 9), (), (), ()⟩ rfl
    exact ⟨domain, d0, timer0, h1, h4⟩, rfl, rfl⟩

/-- C8 as stated fails: in the build without the H5Part backend `restoreState` on an
existing restart file whose last step is iteration `3` and whose attribute `phases_3`
stores six phases, against five configured ones, raises no error. -/
theorem restoreState_size_mismatch_counterexample :
    restoreState false "restart.h5"
        (.file ⟨[3], [⟨"phases_3", [1, 2, 3, 4, 5, 6], none⟩]⟩)
        (⟨[0, 0, 0, 0, 0]⟩ : TurbulenceData Int) =
      some (.ok (), ⟨[0, 0, 0, 0, 0]⟩) ∧
    ¬ (∃ e, restoreState false "restart.h5"
        (.file ⟨[3], [⟨"phases_3", [1, 2, 3, 4, 5, 6], none⟩]⟩)
        (⟨[0, 0, 0, 0, 0]⟩ : TurbulenceData Int) =
      some (.error e, ⟨[0, 0, 0, 0, 0]⟩)) := by
  refine ⟨rfl, ?_⟩
  rintro ⟨e, he⟩
  have h2 : (some (Except.ok (), ⟨[0, 0, 0, 0, 0]⟩) :
      Option (Except fileutils.Error Unit × TurbulenceData Int)) =
      some (.error e, ⟨[0, 0, 0, 0, 0]⟩) := he
  simp at h2

/-- C8, amended: with the H5Part backend compiled in, for an existing restart file with at least
one step that carries an attribute named `phases_<iteration>` (`iteration` the `step`
attribute of the last step) whose stored element count differs from
`turbulenceData.phases.size()`, `TurbVeProp::restoreState` throws the size-mismatch error
and leaves `turbulenceData.phases` exactly as it was. -/
theorem restoreState_size_mismatch {T : Type} (path : String) (h5 : H5PartFile T)
    (turbulenceData : TurbulenceData T) (iteration : Nat)
    (hsteps : h5.steps ≠ [])
    (hiter : h5.steps.getD (h5.steps.length - 1) 0 = iteration)
    (hex : ∃ a ∈ h5.attributes, a.name = "phases_" ++ toString iteration)
    (hne : ∀ a ∈ h5.attributes, a.name = "phases_" ++ toString iteration →
      a.values.length ≠ turbulenceData.phases.length) :
    restoreState true path (.file h5) turbulenceData =
      some (.error (.runtimeError
        "Stored number of phases does not match initialized number of phases\n"),
        turbulenceData) := by
  have hlen : ¬ h5.steps.length = 0 := by
    intro h0
    exact hsteps (List.length_eq_zero.mp h0)
  have hp : ∃ a ∈ h5.attributes,
      (fun a : FileAttribute T => a.name == "phases_" ++ toString iteration) a = true := by
    obtain ⟨a, ha, hn⟩ := hex
    exact ⟨a, ha, by simp [hn]⟩
  have hidx := List.findIdx_lt_length_of_exists hp
  have hget := List.findIdx_getElem (w := hidx)
  have hmem : h5.attributes[h5.attributes.findIdx
      (fun a : FileAttribute T => a.name == "phases_" ++ toString iteration)] ∈ h5.attributes :=
    List.getElem_mem _
  have hcnt := hne _ hmem (by simpa using hget)
  have hidx2 : ¬ h5.attributes.findIdx
      (fun a : FileAttribute T => a.name == "phases_" ++ toString iteration) =
        h5.attributes.length := by omega
  simp only [restoreState, openH5Part, if_true, hlen, if_false, hiter, findIdx_map_name,
    List.length_map, hidx2, List.getElem?_eq_getElem hidx, ne_eq, hcnt, not_false_eq_true]

/-- Witness for the amended C8: a file whose last step is iteration `3`, with six stored phases,
restored into five configured phases. -/
theorem restoreState_size_mismatch_witness :
    (([3] : List Nat) ≠ [] ∧ ([3] : List Nat).getD (([3] : List Nat).length - 1) 0 = 3) ∧
    restoreState true "restart.h5"
        (.file ⟨[3], [⟨"phases_3", [1, 2, 3, 4, 5, 6], none⟩]⟩)
        (⟨[0, 0, 0, 0, 0]⟩ : TurbulenceData Int) =
      some (.error (.runtimeError
        "Stored number of phases does not match initialized number of phases\n"),
        ⟨[0, 0, 0, 0, 0]⟩) :=
  ⟨⟨by decide, by decide⟩,
    restoreState_size_mismatch "restart.h5" ⟨[3], [⟨"phases_3", [1, 2, 3, 4, 5, 6], none⟩]⟩
      ⟨[0, 0, 0, 0, 0]⟩ 3 (by decide) (by decide) (by decide) (by decide)⟩

/-- Without the H5Part backend every call of `TurbVeProp::dump` throws, on every rank. -/
theorem dump_without_backend {T : Type} (rank iteration : Nat) (file : H5PartFile T)
    (turbulenceData : TurbulenceData T) :
    dump false rank turbulenceData iteration file =
      .error (.runtimeError "Turbulence phase output only supported with HDF5 support\n") := by
  simp [dump]

/-- C9: the code at the failing input. Without the H5Part backend `dump` throws, but
`restoreState` on an existing restart file that holds the five phases of iteration `3`
returns normally and leaves the configured phases as they were; with the backend the
same call restores them. -/
theorem restoreState_without_backend_returns :
    restoreState false "restart.h5"
        (.file ⟨[3], [⟨"phases_3", [1, 2, 3, 4, 5], none⟩]⟩)
        (⟨[0, 0, 0, 0, 0]⟩ : TurbulenceData Int) =
      some (.ok (), ⟨[0, 0, 0, 0, 0]⟩) ∧
    restoreState true "restart.h5"
        (.file ⟨[3], [⟨"phases_3", [1, 2, 3, 4, 5], none⟩]⟩)
        (⟨[0, 0, 0, 0, 0]⟩ : TurbulenceData Int) =
      some (.ok (), ⟨[1, 2, 3, 4, 5]⟩) ∧
    dump false 0 (⟨[0, 0, 0, 0, 0]⟩ : TurbulenceData Int) 3 ⟨[3], []⟩ =
      .error (.runtimeError "Turbulence phase output only supported with HDF5 support\n") :=
  ⟨rfl, rfl, rfl⟩

/-! ## Proofs: `sedov_generator.hpp` -/

namespace SedovDataGenerator

/-- The window of rank `r < nrank`, in closed form. -/
theorem loadWindow_eq (n nrank r : Nat) (hr : 1 ≤ nrank) (hn : n < SIZE_T_MOD) (hlt : r < nrank) :
    loadWindow n nrank r =
      some ⟨if r = 0 then n / nrank + (n - nrank * (n / nrank)) else n / nrank,
        if r = 0 then 0 else r * (n / nrank) + (n - nrank * (n / nrank))⟩ := by
  have h0 : ¬ nrank = 0 := by omega
  have hle : nrank * (n / nrank) ≤ n := Nat.mul_div_le n nrank
  have hrl : r * (n / nrank) ≤ nrank * (n / nrank) := Nat.mul_le_mul_right _ (by omega)
  have hsl : 1 * (n / nrank) ≤ nrank * (n / nrank) := Nat.mul_le_mul_right _ hr
  have e1 : mulSz nrank (n / nrank) = nrank * (n / nrank) := mulSz_eq_of_lt (by omega)
  have e2 : subSz n (nrank * (n / nrank)) = n - nrank * (n / nrank) := subSz_eq_of_le hle hn
  have e3 : mulSz r (n / nrank) = r * (n / nrank) := mulSz_eq_of_lt (by omega)
  have e4 : addSz (n / nrank) (n - nrank * (n / nrank)) = n / nrank + (n - nrank * (n / nrank)) :=
    addSz_eq_of_lt (by omega)
  have e5 : addSz (r * (n / nrank)) (n - nrank * (n / nrank)) =
      r * (n / nrank) + (n - nrank * (n / nrank)) := addSz_eq_of_lt (by omega)
  simp only [loadWindow, h0, if_false, e1, e2, e3, e4, e5]
  by_cases hr0 : r = 0
  · subst hr0
    simp
  · have hpos : r > 0 := by omega
    simp [hr0, hpos]

/-- The counts of the first `k + 1` ranks add up to `(k + 1) * split + remaining`. -/
theorem sum_counts (split remaining k : Nat) :
    ((List.range (k + 1)).map (fun r => if r = 0 then split + remaining else split)).sum =
      (k + 1) * split + remaining := by
  induction k with
  | zero => simp [List.range_succ]
  | succ k ih =>
    rw [List.range_succ, List.map_append, List.sum_append, ih]
    simp
    ring

/-- The lattice index of a cell, when `side ^ 3` fits in `size_t`. -/
theorem lindex_eq (side i j k : Nat) (hfit : side * side * side < SIZE_T_MOD)
    (hi : i < side) (hj : j < side) (hk : k < side) :
    lindex side i j k = i * side * side + j * side + k ∧
      i * side * side + j * side + k < side * side * side := by
  have h1 : (j + 1) * side ≤ side * side := Nat.mul_le_mul_right _ (by omega)
  have h2 : (i + 1) * (side * side) ≤ side * (side * side) := Nat.mul_le_mul_right _ (by omega)
  have h3 : (j + 1) * side = j * side + side := by ring
  have h4 : (i + 1) * (side * side) = i * side * side + side * side := by ring
  have h5 : side * (side * side) = side * side * side := by ring
  have h6 : i * side ≤ i * side * side := Nat.le_mul_of_pos_right _ (by omega)
  have hlt : i * side * side + j * side + k < side * side * side := by omega
  have e1 : mulSz i side = i * side := mulSz_eq_of_lt (by omega)
  have e2 : mulSz (i * side) side = i * side * side := mulSz_eq_of_lt (by omega)
  have e3 : mulSz j side = j * side := mulSz_eq_of_lt (by omega)
  have e4 : addSz (i * side * side) (j * side) = i * side * side + j * side :=
    addSz_eq_of_lt (by omega)
  have e5 : addSz (i * side * side + j * side) k = i * side * side + j * side + k :=
    addSz_eq_of_lt (by omega)
  exact ⟨by simp only [lindex, e1, e2, e3, e4, e5], hlt⟩

/-- Every index below `side ^ 3` is the lattice index of a cell. -/
theorem exists_cell_of_lt (side x : Nat) (hx : x < side * side * side) :
    ∃ i j k, i < side ∧ j < side ∧ k < side ∧ x = i * side * side + j * side + k := by
  have hs : 0 < side := by
    rcases Nat.eq_zero_or_pos side with h | h
    · subst h
      simp at hx
    · exact h
  refine ⟨x / side / side, x / side % side, x % side, ?_, Nat.mod_lt _ hs, Nat.mod_lt _ hs, ?_⟩
  · rw [Nat.div_div_eq_div_mul, Nat.div_lt_iff_lt_mul (Nat.mul_pos hs hs)]
    calc x < side * side * side := hx
      _ = side * (side * side) := by ring
  · have h1 := Nat.div_add_mod x side
    have h2 := Nat.div_add_mod (x / side) side
    have h3 : x / side / side * side * side = side * (side * (x / side / side)) := by ring
    have h4 : x / side % side * side = side * (x / side % side) := by ring
    rw [h3, h4]
    have h5 : side * (side * (x / side / side)) + side * (x / side % side) =
        side * (side * (x / side / side) + x / side % side) := by ring
    rw [h5, h2]
    exact h1.symm

/-- What the lattice loop writes on a rank. -/
theorem mem_loadSlots (side : Nat) (w : Window) (x y : Nat) :
    (x, y) ∈ loadSlots side w ↔
      ∃ i j k, i < side ∧ j < side ∧ k < side ∧ inWindow w (lindex side i j k) = true ∧
        x = lindex side i j k ∧ y = subSz (lindex side i j k) w.offset := by
  simp only [loadSlots, List.mem_flatMap, List.mem_range, List.mem_filterMap]
  constructor
  · rintro ⟨i, hi, j, hj, k, hk, h⟩
    by_cases hw : inWindow w (lindex side i j k) = true
    · simp only [hw, if_true, Option.some.injEq, Prod.mk.injEq] at h
      exact ⟨i, j, k, hi, hj, hk, hw, h.1.symm, h.2.symm⟩
    · simp [hw] at h
  · rintro ⟨i, j, k, hi, hj, hk, hw, hx, hy⟩
    exact ⟨i, hi, j, hj, k, hk, by simp [hw, hx, hy]⟩

end SedovDataGenerator

/-- C10: in `SedovDataGenerator::load`, for a global particle count `n` and `1 ≤ nrank`
ranks, with `split = n / nrank` and `remaining = n - nrank * split`, rank `0` gets
`count = split + remaining` at `offset = 0` and every rank `r > 0` gets `count = split`
at `offset = r * split + remaining`; the windows `[offset, offset + count)` are
contiguous, start at `0`, end at `n`, their counts add up to `n`, every index below `n`
passes the window guard of exactly one rank, at a local slot `lindex - offset` below that
rank's `count`, and with `n = side ^ 3` the lattice loop writes every lattice index on
exactly one rank, at that slot. -/
theorem SedovDataGenerator.load_windows_partition (n nrank : Nat) (hr : 1 ≤ nrank)
    (hn : n < SIZE_T_MOD) :
    ∃ w : Nat → SedovDataGenerator.Window,
      (∀ r, r < nrank → SedovDataGenerator.loadWindow n nrank r = some (w r)) ∧
      (∀ r, r < nrank →
        (w r).count = (if r = 0 then n / nrank + (n - nrank * (n / nrank)) else n / nrank) ∧
        (w r).offset = (if r = 0 then 0 else r * (n / nrank) + (n - nrank * (n / nrank)))) ∧
      (w 0).offset = 0 ∧
      (∀ r, r + 1 < nrank → (w r).offset + (w r).count = (w (r + 1)).offset) ∧
      (w (nrank - 1)).offset + (w (nrank - 1)).count = n ∧
      ((List.range nrank).map (fun r => (w r).count)).sum = n ∧
      (∀ x, x < n → ∃! r, r < nrank ∧ SedovDataGenerator.inWindow (w r) x = true) ∧
      (∀ r x, r < nrank → SedovDataGenerator.inWindow (w r) x = true →
        x < n ∧ subSz x (w r).offset = x - (w r).offset ∧ x - (w r).offset < (w r).count) ∧
      (∀ side, side * side * side = n → ∀ x, x < n →
        ∃! r, r < nrank ∧ (x, x - (w r).offset) ∈ SedovDataGenerator.loadSlots side (w r)) ∧
      (∀ side initialRank r, side * side * side = n → 8 ≤ side → r < nrank →
        SedovDataGenerator.generate side initialRank nrank r =
          some (n, w r, SedovDataGenerator.loadSlots side (w r))) := by
  have hle : nrank * (n / nrank) ≤ n := Nat.mul_div_le n nrank
  have hwin := fun r (h : r < nrank) => SedovDataGenerator.loadWindow_eq n nrank r hr hn h
  generalize hS : n / nrank = S at *
  generalize hR : n - nrank * S = R at *
  have hSR : nrank * S + R = n := by omega
  have hend : ∀ r, (if r = 0 then 0 else r * S + R) + (if r = 0 then S + R else S) =
      (r + 1) * S + R := by
    intro r
    have e : (r + 1) * S = r * S + S := by ring
    by_cases h : r = 0
    · subst h
      simp
    · simp only [h, if_false]
      omega
  have hmono : ∀ r, r < nrank → (r + 1) * S + R ≤ n := by
    intro r h
    have : (r + 1) * S ≤ nrank * S := Nat.mul_le_mul_right _ (by omega)
    omega
  have hin : ∀ r x, r < nrank →
      (SedovDataGenerator.inWindow ⟨if r = 0 then S + R else S, if r = 0 then 0 else r * S + R⟩ x
        = true ↔ (if r = 0 then 0 else r * S + R) ≤ x ∧ x < (r + 1) * S + R) := by
    intro r x h
    have e : addSz (if r = 0 then 0 else r * S + R) (if r = 0 then S + R else S) =
        (r + 1) * S + R := by
      rw [addSz_eq_of_lt (by rw [hend r]; have := hmono r h; omega), hend r]
    simp only [SedovDataGenerator.inWindow, e, ge_iff_le, decide_eq_true_eq]
  have huniq : ∀ x, x < n → ∃! r, r < nrank ∧ SedovDataGenerator.inWindow
      ⟨if r = 0 then S + R else S, if r = 0 then 0 else r * S + R⟩ x = true := by
    intro x hx
    obtain ⟨r, hrn, hb0, hb1⟩ := TaskList.exists_cell
      (fun k => if k = 0 then 0 else k * S + R) nrank x (by simp)
      (by
        have : ¬ nrank = 0 := by omega
        simp only [this, if_false]
        omega)
    have hb1' : x < (r + 1) * S + R := by simpa using hb1
    refine ⟨r, ⟨hrn, (hin r x hrn).mpr ⟨hb0, hb1'⟩⟩, ?_⟩
    rintro q ⟨hq, hqw⟩
    obtain ⟨hq0, hq1⟩ := (hin q x hq).mp hqw
    rcases Nat.lt_trichotomy q r with h | h | h
    · have h1 : (q + 1) * S ≤ r * S := Nat.mul_le_mul_right _ (by omega)
      have h2 : ¬ r = 0 := by omega
      simp only [h2, if_false] at hb0
      omega
    · exact h
    · have h1 : (r + 1) * S ≤ q * S := Nat.mul_le_mul_right _ (by omega)
      have h2 : ¬ q = 0 := by omega
      simp only [h2, if_false] at hq0
      omega
  have hslot : ∀ r x, r < nrank → SedovDataGenerator.inWindow
      ⟨if r = 0 then S + R else S, if r = 0 then 0 else r * S + R⟩ x = true →
      x < n ∧ subSz x (if r = 0 then 0 else r * S + R) = x - (if r = 0 then 0 else r * S + R) ∧
        x - (if r = 0 then 0 else r * S + R) < (if r = 0 then S + R else S) := by
    intro r x h hw
    obtain ⟨h0, h1⟩ := (hin r x h).mp hw
    have hm := hmono r h
    have he := hend r
    exact ⟨by omega, subSz_eq_of_le h0 (by omega), by omega⟩
  refine ⟨fun r => ⟨if r = 0 then S + R else S, if r = 0 then 0 else r * S + R⟩,
    hwin, fun r _ => ⟨rfl, rfl⟩, by simp, ?_, ?_, ?_, huniq, hslot, ?_, ?_⟩
  · intro r h
    have e : ¬ (r + 1 = 0) := by omega
    simp only [hend r, e, if_false]
  · have e : nrank - 1 + 1 = nrank := by omega
    have e2 : (nrank - 1 + 1) * S = nrank * S := by rw [e]
    simp only [hend (nrank - 1)]
    omega
  · obtain ⟨k, hk⟩ : ∃ k, nrank = k + 1 := ⟨nrank - 1, by omega⟩
    subst hk
    rw [SedovDataGenerator.sum_counts S R k]
    exact hSR
  · intro side hside x hx
    have hfit : side * side * side < SIZE_T_MOD := by omega
    obtain ⟨r, ⟨hrn, hrw⟩, hru⟩ := huniq x hx
    obtain ⟨i, j, k, hi, hj, hk, hxe⟩ := SedovDataGenerator.exists_cell_of_lt side x (by omega)
    have hl := (SedovDataGenerator.lindex_eq side i j k hfit hi hj hk).1
    refine ⟨r, ⟨hrn, ?_⟩, ?_⟩
    · rw [SedovDataGenerator.mem_loadSlots]
      refine ⟨i, j, k, hi, hj, hk, by rw [hl, ← hxe]; exact hrw, by rw [hl, hxe], ?_⟩
      rw [hl, ← hxe]
      exact (hslot r x hrn hrw).2.1.symm
    · rintro q ⟨hq, hqm⟩
      rw [SedovDataGenerator.mem_loadSlots] at hqm
      obtain ⟨i2, j2, k2, _, _, _, hw2, hx2, _⟩ := hqm
      rw [← hx2] at hw2
      exact hru q ⟨hq, hw2⟩
  · intro side initialRank r hside h8 hrn
    have hfit : side * side * side < SIZE_T_MOD := by omega
    have hss : side * side ≤ side * side * side := Nat.le_mul_of_pos_right _ (by omega)
    have e1 : mulSz side side = side * side := mulSz_eq_of_lt (by omega)
    have e2 : mulSz (side * side) side = side * side * side := mulSz_eq_of_lt hfit
    have e3 : ¬ (initialRank = 0 ∧ side < 8) := by omega
    simp only [SedovDataGenerator.generate, e3, if_false, e1, e2, hside, hwin r hrn]

/-- Witness for C10: ten particles on three ranks get the windows `[0,4)`, `[4,7)`,
`[7,10)`. -/
theorem SedovDataGenerator.load_windows_partition_witness :
    (1 ≤ 3 ∧ 10 < SIZE_T_MOD) ∧
    (∃ w : Nat → SedovDataGenerator.Window,
      (∀ r, r < 3 → SedovDataGenerator.loadWindow 10 3 r = some (w r)) ∧
      ((List.range 3).map (fun r => (w r).count)).sum = 10) ∧
    (List.range 3).map (SedovDataGenerator.loadWindow 10 3) =
      [some ⟨4, 0⟩, some ⟨3, 4⟩, some ⟨3, 7⟩] :=
  ⟨⟨by decide, by decide⟩, by
    obtain ⟨w, h1, _, _, _, _, h6, _⟩ :=
      SedovDataGenerator.load_windows_partition 10 3 (by decide) (by decide)
    exact ⟨w, h1, h6⟩, by decide⟩

end sphexa
